import Mathlib

/-!
Shallow embedding of `NMS_ModConflictSuite/updater/auto_updater.py` (the
update / integrity core of the repository) and proofs about the claims of
its specification.

Modelling conventions:
* The Python dicts holding the persisted version record are modelled by
  `RawVersionInfo`, whose fields are `Option`-wrapped to distinguish a key
  that is absent from the JSON object (`none`) from a key that is present
  (`some v`); a present `last_commit` key whose value is JSON `null` is
  `some none`.  A well-formed record (all three keys present) is
  `VersionInfo`.
* All I/O is made explicit: the environment `Env` carries the hash
  function (`hashlib.sha256(...).hexdigest()`), the results of the two
  remote endpoints, the initial local disk contents and the per-path
  success/failure of every file-system operation.  Network and file-system
  exceptions of the source become `Except`/`Option` results here.
* Disk mutation is threaded as a function `Disk` and additionally logged
  as a list of `FsEvent`s (one event per successful copy / write / rename /
  delete performed by the source), so that statements about which paths an
  operation touches are expressible.
-/

namespace NMSUpdater

/-- `TRACKED_FILES` - source lines 26-35. -/
def TRACKED_FILES : List String :=
  [ "run_mcs.bat",
    "conflict_checker/check_conflicts.bat",
    "finders/gamedata_finder.py",
    "finders/steam_finder.py",
    "conflict_checker/path_verifier.py",
    "conflict_checker/simple_conflict_checker.py",
    "updater/json_extract.py",
    "updater/auto_updater.py" ]

/-- `VERSION_FILE` - source line 38. -/
def VERSION_FILE : String := "version_info.json"

/-- `file_path.with_suffix(file_path.suffix + '.backup')` (source lines 295,
613, 651).  For every tracked file name (each has a nonempty final suffix
and no trailing dot) this is the original name with `.backup` appended. -/
def backupName (f : String) : String := f ++ ".backup"

/-- Result of `get_latest_commit` (source lines 112-126). -/
structure CommitInfo where
  sha : String
  message : String
  date : String
  author : String
deriving Repr, DecidableEq

/-- The in-memory version dict as loaded from JSON.  A field is `none` when
the corresponding key is absent from the parsed object (accessing it with
`d[k]` then raises `KeyError`); `last_commit`/`last_check` values may
themselves be JSON `null` (`some none`). -/
structure RawVersionInfo where
  last_commit : Option (Option String)
  file_hashes : Option (List (String × String))
  last_check : Option (Option String)
deriving Repr, DecidableEq

/-- A well-formed version record: all three JSON keys present. -/
structure VersionInfo where
  last_commit : Option String
  file_hashes : List (String × String)
  last_check : Option String
deriving Repr, DecidableEq

def VersionInfo.toRaw (v : VersionInfo) : RawVersionInfo :=
  ⟨some v.last_commit, some v.file_hashes, some v.last_check⟩

/-- Python dict lookup `hs.get(k)` on the `file_hashes` object. -/
def hashesGet (hs : List (String × String)) (k : String) : Option String :=
  (hs.find? (fun p => p.1 = k)).map (fun p => p.2)

/-- Python dict assignment `hs[k] = v`: replaces the value at an existing
key in place, otherwise appends the new key. -/
def hashesSet (hs : List (String × String)) (k v : String) : List (String × String) :=
  if (hs.find? (fun p => p.1 = k)).isSome then
    hs.map (fun p => if p.1 = k then (k, v) else p)
  else
    hs ++ [(k, v)]

/-- Python truthiness of an optional string (`None` and `""` are falsy). -/
def pyTruthy : Option String → Bool
  | none => false
  | some s => !s.isEmpty

/-- `is_first_run` (source lines 50-56), applied to the value of the
`last_commit` key: first run iff the value is `null` or the string
`"null"`. -/
def is_first_run (lastCommit : Option String) : Bool :=
  lastCommit = none || lastCommit = some "null"

/-- The persisted `version_info.json` file: absent, present but not valid
JSON, or present holding a parsed JSON object. -/
inductive Store where
  | absent
  | unparseable
  | parsed (r : RawVersionInfo)
deriving Repr, DecidableEq

/-- `load_version_info` (source lines 59-79): the parsed record when the
file exists and parses, otherwise the zero-value record. -/
def load_version_info : Store → RawVersionInfo
  | .absent => ⟨some none, some [], some none⟩
  | .unparseable => ⟨some none, some [], some none⟩
  | .parsed r => r

/-- The environment of one run: the hash function, the outcome of the two
remote endpoints (`get_latest_commit`, `get_file_from_repo` at the latest
commit - every fetch in a run passes the latest commit's sha), the initial
on-disk content of each path, and the success or failure (with exception
message) of each file-system operation, per path. -/
structure Env where
  hashFn : String → String
  latestCommit : Except String CommitInfo
  fetchFile : String → Except String String
  localFiles : String → Option String
  mkdirErr : String → Option String
  writeErr : String → Option String
  backupOk : String → Bool
  renameOk : String → Bool
  deleteErr : String → Option String
  saveOk : Bool

/-- Mutable disk state, threaded through the executors. -/
abbrev Disk := String → Option String

/-- One successful file-system mutation performed by the source code. -/
inductive FsEvent where
  | copyFile (src dst : String)
  | writeFile (path : String) (content : String)
  | renameFile (src dst : String)
  | deleteFile (path : String)
  | writeRecord (path : String) (r : RawVersionInfo)
deriving Repr, DecidableEq

/-- The path(s) an event creates, modifies or deletes. -/
def FsEvent.paths : FsEvent → List String
  | .copyFile _ dst => [dst]
  | .writeFile p _ => [p]
  | .renameFile src dst => [src, dst]
  | .deleteFile p => [p]
  | .writeRecord p _ => [p]

/-- `save_version_info` (source lines 82-92): writes the record to
`version_info.json`, returning a success flag; on I/O failure returns
`false` without mutating the store. -/
def save_version_info (env : Env) (r : RawVersionInfo) (s : Store) :
    Bool × Store × List FsEvent :=
  if env.saveOk then (true, .parsed r, [.writeRecord VERSION_FILE r])
  else (false, s, [])

/-- `get_current_file_hash` (source lines 240-250) and `get_file_hash`
(lines 41-47): hash of the live on-disk content, `none` when absent. -/
def get_current_file_hash (env : Env) (name : String) : Option String :=
  (env.localFiles name).map env.hashFn

/-- One entry of the `changed_files` list (source lines 275-287): either a
normal dict with `name` / `local_hash` (recorded) / `current_hash` (live) /
`repo_hash` / `content`, or a dict carrying an `error` key. -/
inductive ChangedFile where
  | ok (name : String) (local_hash : Option String) (current_hash : Option String)
       (repo_hash : String) (content : String)
  | err (name : String) (msg : String)
deriving Repr, DecidableEq

def ChangedFile.name : ChangedFile → String
  | .ok n _ _ _ _ => n
  | .err n _ => n

/-- The per-file body of the loop of `get_changed_files` (source lines
258-287): fetch the file (failure is caught and becomes an `error` entry),
hash it, look up the recorded hash (a missing `file_hashes` key raises
`KeyError`, also caught per file), hash the live file, and emit an entry
when any of the three "changed" conditions of lines 272-274 holds. -/
def changedEntry (env : Env) (raw : RawVersionInfo) (name : String) :
    Option ChangedFile :=
  match env.fetchFile name with
  | .error e => some (.err name ("Failed to download " ++ name ++ ": " ++ e))
  | .ok repo_content =>
    let repo_hash := env.hashFn repo_content
    match raw.file_hashes with
    | none => some (.err name "'file_hashes'")
    | some hs =>
      let local_hash := hashesGet hs name
      let current_file_hash := get_current_file_hash env name
      if local_hash ≠ some repo_hash ∨ current_file_hash ≠ some repo_hash ∨
          current_file_hash = none then
        some (.ok name local_hash current_file_hash repo_hash repo_content)
      else
        none

/-- `get_changed_files` (source lines 253-289).  It reloads the version
record; within one run this yields the same record the caller loaded, which
is passed here explicitly. -/
def get_changed_files (env : Env) (raw : RawVersionInfo) : List ChangedFile :=
  TRACKED_FILES.filterMap (changedEntry env raw)

/-- The class the integrity loop of `check_for_updates` assigns to one
`changed_files` entry (`none_` = the entry falls through every branch). -/
inductive Classification where
  | missing
  | corrupted
  | updated
  | none_
deriving Repr, DecidableEq

/-- The branch structure of the loop body, source lines 167-198.
`lc` is the value of the (present) `last_commit` key, `fr` the
`first_run` flag, `sha` the latest commit id. -/
def classifyOne (env : Env) (lc : Option String) (fr : Bool) (sha : String) :
    ChangedFile → Classification
  | .err name _ =>
    if env.localFiles name = none then .missing
    else if fr = false then .corrupted
    else .none_
  | .ok _ lh ch rh _ =>
    if ch = none then .missing
    else if ch ≠ some rh then
      if fr = false ∧ pyTruthy lh = true ∧ ch ≠ lh then .corrupted
      else if lc = some sha then .corrupted
      else if fr = true then .none_
      else .updated
    else .none_

/-- The names the loop appends to one of the three lists, in entry order. -/
def classifiedAs (env : Env) (lc : Option String) (fr : Bool) (sha : String)
    (cl : Classification) (changed : List ChangedFile) : List String :=
  (changed.filter (fun fi => classifyOne env lc fr sha fi = cl)).map ChangedFile.name

/-- The result dict of `check_for_updates`.  The error result of source
lines 230-237 carries no file lists and no commit info; those fields are
`[]` / `none` here. -/
structure CheckResult where
  error : Bool
  message : Option String
  updates_available : Bool
  latest_commit : Option CommitInfo
  current_commit : Option (Option String)
  integrity_status : String
  missing_files : List String
  corrupted_files : List String
  updated_files : List String
  needs_repair : Bool
  can_repair : Bool
deriving Repr, DecidableEq

/-- The top-level error result returned by the `except` handler of
`check_for_updates` (source lines 229-237). -/
def errorResult (msg : String) : CheckResult :=
  { error := true, message := some msg, updates_available := false,
    latest_commit := none, current_commit := none,
    integrity_status := "unknown", missing_files := [], corrupted_files := [],
    updated_files := [], needs_repair := false, can_repair := false }

/-- `check_for_updates` (source lines 139-237).  `get_latest_commit` raises
first (its failure escalates); building the result dict then evaluates
`current_version["last_commit"]`, so a record without that key raises
`KeyError`, which the same handler turns into the error result. -/
def check_for_updates (env : Env) (store : Store) (include_integrity : Bool) :
    CheckResult :=
  let raw := load_version_info store
  match env.latestCommit with
  | .error e => errorResult ("Failed to get commit info: " ++ e)
  | .ok latest =>
    match raw.last_commit with
    | none => errorResult "'last_commit'"
    | some lc =>
      if include_integrity = true ∨ lc ≠ some latest.sha then
        let changed := get_changed_files env raw
        let fr := is_first_run lc
        let m := classifiedAs env lc fr latest.sha .missing changed
        let c := classifiedAs env lc fr latest.sha .corrupted changed
        let u := classifiedAs env lc fr latest.sha .updated changed
        let critical := m.length + c.length
        let hasUpdates :=
          if fr = true then decide (0 < critical)
          else decide (0 < u.length) || decide (lc ≠ some latest.sha)
        { error := false, message := none, updates_available := hasUpdates,
          latest_commit := some latest, current_commit := some lc,
          integrity_status := if 0 < critical then "critical" else "ok",
          missing_files := m, corrupted_files := c, updated_files := u,
          needs_repair := decide (0 < critical), can_repair := true }
      else
        { error := false, message := none, updates_available := false,
          latest_commit := some latest, current_commit := some lc,
          integrity_status := "ok", missing_files := [], corrupted_files := [],
          updated_files := [], needs_repair := false, can_repair := true }

/-- `backup_file` (source lines 292-301): when the path exists, copy it to
its sibling `.backup` path, returning that path; on copy failure (or when
the path is absent) return `none`.  A failed copy creates nothing. -/
def backup_file (env : Env) (disk : Disk) (p : String) :
    Disk × List FsEvent × Option String :=
  match disk p with
  | some content =>
    if env.backupOk p then
      (fun q => if q = backupName p then some content else disk q,
       [.copyFile p (backupName p)], some (backupName p))
    else (disk, [], none)
  | none => (disk, [], none)

/-- Entry of the `updated_files` list of `update_files` (source lines
356-359). -/
structure UpdEntry where
  name : String
  backup : Option String
deriving Repr, DecidableEq

/-- Body of the loop of `update_files` (source lines 337-362) for one
entry: error entries go straight to `failed_files`; otherwise create the
parent directory (failure caught → failed), back the file up (failure
tolerated), and write the new content (failure caught → failed). -/
def updateOne (env : Env) (disk : Disk) (fi : ChangedFile) :
    Disk × List FsEvent × Option UpdEntry × Option String :=
  match fi with
  | .err name e => (disk, [], none, some (name ++ ": " ++ e))
  | .ok name _ _ _ content =>
    match env.mkdirErr name with
    | some e => (disk, [], none, some (name ++ ": " ++ e))
    | none =>
      let b := backup_file env disk name
      match env.writeErr name with
      | some e => (b.1, b.2.1, none, some (name ++ ": " ++ e))
      | none =>
        (fun q => if q = name then some content else b.1 q,
         b.2.1 ++ [.writeFile name content], some ⟨name, b.2.2⟩, none)

/-- `update_files` (source lines 331-364): returns the final disk, the
`updated_files` and `failed_files` lists and the event log; a per-file
failure never aborts the remaining files. -/
def update_files (env : Env) (disk : Disk) :
    List ChangedFile → Disk × List UpdEntry × List String × List FsEvent
  | [] => (disk, [], [], [])
  | fi :: rest =>
    let r1 := updateOne env disk fi
    let r2 := update_files env r1.1 rest
    (r2.1, r1.2.2.1.toList ++ r2.2.1, r1.2.2.2.toList ++ r2.2.2.1,
     r1.2.1 ++ r2.2.2.2)

/-- `cleanup_backup_files` (source lines 304-328) over the list of backup
paths of the entries passed in (`none` = the entry recorded no backup):
delete each existing backup, collecting successes and failures. -/
def cleanup_backups (env : Env) (disk : Disk) :
    List (Option String) → Disk × List FsEvent × List String × List String
  | [] => (disk, [], [], [])
  | none :: rest => cleanup_backups env disk rest
  | some b :: rest =>
    if disk b ≠ none then
      match env.deleteErr b with
      | none =>
        let r := cleanup_backups env (fun q => if q = b then none else disk q) rest
        (r.1, .deleteFile b :: r.2.1, b :: r.2.2.1, r.2.2.2)
      | some e =>
        let r := cleanup_backups env disk rest
        (r.1, r.2.1, r.2.2.1, (b ++ ": " ++ e) :: r.2.2.2)
    else cleanup_backups env disk rest

/-- The hash-recording loop of `perform_update` (source lines 442-444):
for every `changed_files` entry carrying a `repo_hash` key - error entries
carry none - store that hash in `file_hashes`, regardless of whether the
file's write succeeded.  A missing `file_hashes` key raises `KeyError`
(escaping to the outer handler). -/
def recordHashes (changed : List ChangedFile) (cv : RawVersionInfo) :
    Except String RawVersionInfo :=
  match changed with
  | [] => .ok cv
  | .err _ _ :: rest => recordHashes rest cv
  | .ok name _ _ rh _ :: rest =>
    match cv.file_hashes with
    | none => .error "'file_hashes'"
    | some hs => recordHashes rest { cv with file_hashes := some (hashesSet hs name rh) }

/-- The result dict of `perform_update` (source lines 389-467). -/
structure UpdateResult where
  status : String
  message : Option String
  updated_files : List UpdEntry
  failed_files : List String
deriving Repr, DecidableEq

/-- `perform_update` (source lines 389-467): check, fetch the changed
files, write them (collecting per-file failures), then stamp `last_commit`,
record the repo hash of every fetched entry, set `last_check`, save once
(the save result is ignored), and clean up backups unless asked to keep
them. -/
def perform_update (env : Env) (store : Store) (keepBackups : Bool) :
    UpdateResult × Store × Disk × List FsEvent :=
  match env.latestCommit with
  | .error e =>
    ({ status := "error", message := some ("Failed to get commit info: " ++ e),
       updated_files := [], failed_files := [] }, store, env.localFiles, [])
  | .ok latest =>
    let chk := check_for_updates env store false
    if chk.error = true then
      ({ status := "error", message := chk.message,
         updated_files := [], failed_files := [] }, store, env.localFiles, [])
    else if chk.updates_available = false then
      ({ status := "up_to_date", message := some "No updates available",
         updated_files := [], failed_files := [] }, store, env.localFiles, [])
    else
      let raw := load_version_info store
      let changed := get_changed_files env raw
      if changed = [] then
        let cv := { raw with last_commit := some (some latest.sha) }
        let sv := save_version_info env cv store
        ({ status := "up_to_date",
           message := some "Repository updated but no file changes",
           updated_files := [], failed_files := [] }, sv.2.1, env.localFiles, sv.2.2)
      else
        let r := update_files env env.localFiles changed
        let cv1 := { raw with last_commit := some (some latest.sha) }
        match recordHashes changed cv1 with
        | .error e =>
          ({ status := "error", message := some e,
             updated_files := [], failed_files := [] }, store, r.1, r.2.2.2)
        | .ok cv2 =>
          let cv3 := { cv2 with last_check := some (some latest.date) }
          let sv := save_version_info env cv3 store
          if keepBackups = true then
            ({ status := "success", message := none,
               updated_files := r.2.1, failed_files := r.2.2.1 },
             sv.2.1, r.1, r.2.2.2 ++ sv.2.2)
          else
            let cb := cleanup_backups env r.1 (r.2.1.map UpdEntry.backup)
            ({ status := "success", message := none,
               updated_files := r.2.1, failed_files := r.2.2.1 },
             sv.2.1, cb.1, r.2.2.2 ++ sv.2.2 ++ cb.2.1)

/-- One iteration of the repair loop of `main --repair` (source lines
597-626): fetch the file, make its directory, rename an existing copy to
the `.backup` sibling, write the fetched content.  Any exception makes the
file a failed repair; a failure after the rename leaves the file absent
with only the backup. -/
def repairOne (env : Env) (disk : Disk) (name : String) :
    Disk × List FsEvent × Bool :=
  match env.fetchFile name with
  | .error _ => (disk, [], false)
  | .ok content =>
    match env.mkdirErr name with
    | some _ => (disk, [], false)
    | none =>
      match disk name with
      | some old =>
        if env.renameOk name then
          let disk1 : Disk :=
            fun q => if q = name then none
                     else if q = backupName name then some old else disk q
          match env.writeErr name with
          | none =>
            ((fun q => if q = name then some content else disk1 q),
             [.renameFile name (backupName name), .writeFile name content], true)
          | some _ => (disk1, [.renameFile name (backupName name)], false)
        else (disk, [], false)
      | none =>
        match env.writeErr name with
        | none =>
          ((fun q => if q = name then some content else disk q),
           [.writeFile name content], true)
        | some _ => (disk, [], false)

/-- The repair loop (source lines 597-626): repaired count and the
`failed_repairs` list, in file order; a failure never aborts the loop. -/
def repairLoop (env : Env) (disk : Disk) :
    List String → Disk × List FsEvent × Nat × List String
  | [] => (disk, [], 0, [])
  | name :: rest =>
    let r1 := repairOne env disk name
    let r2 := repairLoop env r1.1 rest
    (r2.1, r1.2.1 ++ r2.2.1, (if r1.2.2 then 1 else 0) + r2.2.2.1,
     if r1.2.2 then r2.2.2.2 else name :: r2.2.2.2)

/-- The record-update loop of `main --repair` (source lines 636-640): for
every target not in `failed_repairs`, re-hash the (now updated) on-disk
file and record the hash when it is truthy.  A missing `file_hashes` key
raises `KeyError` (caught by the outer handler of the repair branch). -/
def repairRecord (env : Env) (disk : Disk) (failed : List String)
    (cv : RawVersionInfo) : List String → Except String RawVersionInfo
  | [] => .ok cv
  | name :: rest =>
    if name ∈ failed then repairRecord env disk failed cv rest
    else
      match (disk name).map env.hashFn with
      | some h =>
        if h.isEmpty then repairRecord env disk failed cv rest
        else
          match cv.file_hashes with
          | none => .error "'file_hashes'"
          | some hs =>
            repairRecord env disk failed
              { cv with file_hashes := some (hashesSet hs name h) } rest
      | none => repairRecord env disk failed cv rest

/-- Outcome of the `--repair` branch of `main`. -/
structure RepairOutcome where
  exitCode : Nat
  repairedCount : Nat
  failed_repairs : List String
deriving Repr, DecidableEq

/-- The `--repair` branch of `main` (source lines 577-670): integrity
check, repair loop over `missing_files + corrupted_files`; when any repair
failed, return exit code 1 *before* touching the version record; otherwise
stamp `last_commit`, record the re-hashed files, save (result ignored) and
clean up the repair backups unless asked to keep them. -/
def repair_run (env : Env) (store : Store) (keepBackups : Bool) :
    RepairOutcome × Store × Disk × List FsEvent :=
  let chk := check_for_updates env store true
  if chk.integrity_status = "critical" then
    let targets := chk.missing_files ++ chk.corrupted_files
    if targets ≠ [] then
      match env.latestCommit with
      | .error _ => (⟨1, 0, []⟩, store, env.localFiles, [])
      | .ok latest =>
        let rl := repairLoop env env.localFiles targets
        if rl.2.2.2 ≠ [] then (⟨1, rl.2.2.1, rl.2.2.2⟩, store, rl.1, rl.2.1)
        else
          let cv1 := { load_version_info store with
                       last_commit := some (some latest.sha) }
          match repairRecord env rl.1 rl.2.2.2 cv1 targets with
          | .error _ => (⟨1, rl.2.2.1, rl.2.2.2⟩, store, rl.1, rl.2.1)
          | .ok cv2 =>
            let sv := save_version_info env cv2 store
            if keepBackups = true then
              (⟨0, rl.2.2.1, rl.2.2.2⟩, sv.2.1, rl.1, rl.2.1 ++ sv.2.2)
            else
              let bks := targets.filterMap (fun t =>
                if t ∈ rl.2.2.2 then none
                else if rl.1 (backupName t) ≠ none then
                  some (some (backupName t))
                else none)
              let cb := cleanup_backups env rl.1 bks
              (⟨0, rl.2.2.1, rl.2.2.2⟩, sv.2.1, cb.1, rl.2.1 ++ sv.2.2 ++ cb.2.1)
    else (⟨0, 0, []⟩, store, env.localFiles, [])
  else (⟨0, 0, []⟩, store, env.localFiles, [])

/-- Observation helper: the record held by a store. -/
def Store.recordOf : Store → Option RawVersionInfo
  | .parsed r => some r
  | _ => none

/-- Observation helper: the hash a store's record holds for `k`. -/
def recordedHash (s : Store) (k : String) : Option String :=
  match s.recordOf with
  | some r =>
    match r.file_hashes with
    | some hs => hashesGet hs k
    | none => none
  | none => none

/-- Observation helper: the commit id a store's record holds. -/
def lastCommitOf : Store → Option String
  | .parsed r => r.last_commit.join
  | _ => none

/-- A path the executors are allowed to touch: a tracked file, the
`.backup` sibling of a tracked file, or the persisted version file. -/
def allowedPath (p : String) : Prop :=
  p ∈ TRACKED_FILES ∨ (∃ t ∈ TRACKED_FILES, p = backupName t) ∨ p = VERSION_FILE

/-! ## Basic lemmas about the classifier -/

theorem changedEntry_name {env : Env} {raw : RawVersionInfo} {t : String}
    {fi : ChangedFile} (h : changedEntry env raw t = some fi) : fi.name = t := by
  unfold changedEntry at h
  cases hf : env.fetchFile t with
  | error e => rw [hf] at h; injection h with h; subst h; rfl
  | ok c =>
    rw [hf] at h
    cases hh : raw.file_hashes with
    | none => rw [hh] at h; injection h with h; subst h; rfl
    | some hs =>
      rw [hh] at h
      simp only at h
      split at h
      · injection h with h; subst h; rfl
      · cases h

/-- What a non-error `changed_files` entry looks like. -/
theorem changedEntry_shape {env : Env} {raw : RawVersionInfo} {t : String}
    {fi : ChangedFile} (h : changedEntry env raw t = some fi) :
    (∃ msg, fi = .err t msg) ∨
    (∃ hs rc, raw.file_hashes = some hs ∧ env.fetchFile t = .ok rc ∧
      fi = .ok t (hashesGet hs t) (get_current_file_hash env t) (env.hashFn rc) rc) := by
  unfold changedEntry at h
  cases hf : env.fetchFile t with
  | error e =>
    rw [hf] at h; injection h with h
    exact .inl ⟨_, h.symm⟩
  | ok c =>
    rw [hf] at h
    cases hh : raw.file_hashes with
    | none =>
      rw [hh] at h; injection h with h
      exact .inl ⟨_, h.symm⟩
    | some hs =>
      rw [hh] at h
      simp only at h
      split at h
      · injection h with h
        exact .inr ⟨hs, c, rfl, rfl, h.symm⟩
      · cases h

/-- The fully evaluated entry when the fetch succeeds and the record has a
`file_hashes` key. -/
theorem changedEntry_ok {env : Env} {raw : RawVersionInfo} {t : String}
    {hs : List (String × String)} {c : String}
    (hf : env.fetchFile t = .ok c) (hh : raw.file_hashes = some hs) :
    changedEntry env raw t =
      if hashesGet hs t ≠ some (env.hashFn c) ∨
         get_current_file_hash env t ≠ some (env.hashFn c) ∨
         get_current_file_hash env t = none then
        some (.ok t (hashesGet hs t) (get_current_file_hash env t) (env.hashFn c) c)
      else none := by
  unfold changedEntry
  rw [hf, hh]

/-- Membership in one of the three classification lists, reduced to the
entry the loop of `get_changed_files` produces for that very name. -/
theorem mem_classifiedAs {env : Env} {raw : RawVersionInfo} {lc : Option String}
    {fr : Bool} {sha : String} {cl : Classification} {name : String} :
    name ∈ classifiedAs env lc fr sha cl (get_changed_files env raw) ↔
      name ∈ TRACKED_FILES ∧
      ∃ fi, changedEntry env raw name = some fi ∧ classifyOne env lc fr sha fi = cl := by
  simp only [classifiedAs, get_changed_files, List.mem_map, List.mem_filter,
    List.mem_filterMap, decide_eq_true_eq]
  constructor
  · rintro ⟨fi, ⟨⟨t, ht, he⟩, hcl⟩, rfl⟩
    have hn := changedEntry_name he
    rw [hn]
    exact ⟨hn ▸ ht, fi, hn ▸ he, hcl⟩
  · rintro ⟨ht, fi, he, hcl⟩
    exact ⟨fi, ⟨⟨name, ht, he⟩, hcl⟩, changedEntry_name he⟩

/-- A classification list is empty when no entry of the changed list gets
that class. -/
theorem classifiedAs_eq_nil {env : Env} {raw : RawVersionInfo} {lc : Option String}
    {fr : Bool} {sha : String} {cl : Classification}
    (h : ∀ t fi, t ∈ TRACKED_FILES → changedEntry env raw t = some fi →
      classifyOne env lc fr sha fi ≠ cl) :
    classifiedAs env lc fr sha cl (get_changed_files env raw) = [] := by
  simp only [classifiedAs, List.map_eq_nil_iff, List.filter_eq_nil_iff,
    decide_eq_true_eq, get_changed_files, List.mem_filterMap]
  rintro fi ⟨t, ht, he⟩
  exact h t fi ht he

/-! ## C9: save/load round-trip -/

/-- **C9**: for every version record, `save_version_info` followed by
`load_version_info` returns a record equal to the one saved, provided the
save reported success. -/
theorem c9_save_load_roundtrip (env : Env) (r : RawVersionInfo) (s : Store)
    (h : (save_version_info env r s).1 = true) :
    load_version_info (save_version_info env r s).2.1 = r := by
  cases hS : env.saveOk with
  | true => simp [save_version_info, hS, load_version_info]
  | false => simp [save_version_info, hS] at h

def rawC9 : RawVersionInfo :=
  ⟨some (some "c1"), some [("run_mcs.bat", "aa11")], some (some "2025-01-01")⟩

def envBase : Env where
  hashFn := fun s => "#" ++ s
  latestCommit := .ok ⟨"c2", "msg", "2025-01-02", "au"⟩
  fetchFile := fun n => .ok ("C-" ++ n)
  localFiles := fun _ => none
  mkdirErr := fun _ => none
  writeErr := fun _ => none
  backupOk := fun _ => true
  renameOk := fun _ => true
  deleteErr := fun _ => none
  saveOk := true

theorem c9_witness :
    (save_version_info envBase rawC9 .absent).1 = true ∧
    load_version_info (save_version_info envBase rawC9 .absent).2.1 = rawC9 :=
  ⟨rfl, c9_save_load_roundtrip envBase rawC9 .absent rfl⟩

/-! ## C10: loading a record that lacks expected keys -/

def rawNoHashes : RawVersionInfo := ⟨some (some "c1"), none, some none⟩

/-- **C10, counterexample**: a persisted record that is valid JSON but has
no `file_hashes` key does *not* make `check_for_updates` return the
top-level error result; the claim says it does. -/
theorem c10_counterexample :
    (check_for_updates envBase (.parsed rawNoHashes) true).error = false := by
  decide

/-- **C10, amended**: `load_version_info` substitutes the zero-value record
only for an absent or unparseable file and returns a parsed object
unchanged; a subsequent `check_for_updates` returns the top-level error
result exactly when the `last_commit` key is missing - with `last_commit`
present (whether or not `file_hashes` is missing) the check returns a
normal, non-error result. -/
theorem c10_load_passthrough (r : RawVersionInfo) (env : Env)
    (latest : CommitInfo) (ii : Bool) (hl : env.latestCommit = .ok latest) :
    load_version_info (.parsed r) = r ∧
    (r.last_commit = none → (check_for_updates env (.parsed r) ii).error = true) ∧
    (∀ lc, r.last_commit = some lc →
      (check_for_updates env (.parsed r) ii).error = false) := by
  refine ⟨rfl, ?_, ?_⟩
  · intro h
    simp [check_for_updates, hl, load_version_info, h, errorResult]
  · intro lc h
    simp only [check_for_updates, hl, load_version_info, h]
    split <;> rfl

theorem c10_witness :
    load_version_info (.parsed rawNoHashes) = rawNoHashes ∧
    (rawNoHashes.last_commit = none →
      (check_for_updates envBase (.parsed rawNoHashes) false).error = true) ∧
    (∀ lc, rawNoHashes.last_commit = some lc →
      (check_for_updates envBase (.parsed rawNoHashes) false).error = false) :=
  c10_load_passthrough rawNoHashes envBase ⟨"c2", "msg", "2025-01-02", "au"⟩ false rfl

/-- The result of `check_for_updates` when the per-file integrity loop
runs (integrity requested, or the stored commit differs from the latest). -/
theorem check_for_updates_loop (env : Env) (store : Store) (latest : CommitInfo)
    (lc : Option String) (ii : Bool)
    (hl : env.latestCommit = .ok latest)
    (hlc : (load_version_info store).last_commit = some lc)
    (hcond : ii = true ∨ lc ≠ some latest.sha) :
    check_for_updates env store ii =
      (let changed := get_changed_files env (load_version_info store)
       let fr := is_first_run lc
       let m := classifiedAs env lc fr latest.sha .missing changed
       let c := classifiedAs env lc fr latest.sha .corrupted changed
       let u := classifiedAs env lc fr latest.sha .updated changed
       { error := false, message := none,
         updates_available :=
           if fr = true then decide (0 < m.length + c.length)
           else decide (0 < u.length) || decide (lc ≠ some latest.sha),
         latest_commit := some latest, current_commit := some lc,
         integrity_status := if 0 < m.length + c.length then "critical" else "ok",
         missing_files := m, corrupted_files := c, updated_files := u,
         needs_repair := decide (0 < m.length + c.length), can_repair := true }) := by
  simp only [check_for_updates]
  rw [hlc]
  rw [hl]
  simp only []
  rw [if_pos hcond]

/-! ## C5: live hash equal to remote hash means healthy -/

/-- **C5**: for every tracked file, if the live on-disk hash equals the
remote hash, the file appears in none of the missing / corrupted /
update-available lists, whatever hash (if any) the record holds for it. -/
theorem c5_live_eq_remote_healthy (env : Env) (v : VersionInfo) (ii : Bool)
    (latest : CommitInfo) (name content localContent : String)
    (hl : env.latestCommit = .ok latest)
    (hf : env.fetchFile name = .ok content)
    (hloc : env.localFiles name = some localContent)
    (hh : env.hashFn localContent = env.hashFn content) :
    (check_for_updates env (.parsed v.toRaw) ii).error = false ∧
    name ∉ (check_for_updates env (.parsed v.toRaw) ii).missing_files ∧
    name ∉ (check_for_updates env (.parsed v.toRaw) ii).corrupted_files ∧
    name ∉ (check_for_updates env (.parsed v.toRaw) ii).updated_files := by
  have hch : get_current_file_hash env name = some (env.hashFn content) := by
    simp [get_current_file_hash, hloc, hh]
  have key : ∀ cl : Classification, ∀ lc fr,
      ¬(name ∈ TRACKED_FILES ∧ ∃ fi, changedEntry env v.toRaw name = some fi ∧
        classifyOne env lc fr latest.sha fi = cl) ∨ cl = .none_ := by
    intro cl lc fr
    by_cases hcl : cl = Classification.none_
    · exact .inr hcl
    · refine .inl ?_
      rintro ⟨-, fi, he, hclass⟩
      rw [changedEntry_ok hf rfl, hch] at he
      by_cases hrec : hashesGet v.file_hashes name = some (env.hashFn content)
      · rw [if_neg (by simp [hrec])] at he
        cases he
      · rw [if_pos (Or.inl hrec)] at he
        injection he with he
        rw [← he] at hclass
        simp only [classifyOne] at hclass
        rw [if_neg (by simp), if_neg (by simp)] at hclass
        exact hcl hclass.symm
  by_cases hcond : ii = true ∨ v.last_commit ≠ some latest.sha
  · rw [check_for_updates_loop env (.parsed v.toRaw) latest v.last_commit ii hl rfl hcond]
    refine ⟨rfl, ?_, ?_, ?_⟩ <;>
    · intro hmem
      rcases key _ v.last_commit (is_first_run v.last_commit) with hk | hk
      · exact hk (mem_classifiedAs.mp hmem)
      · cases hk
  · simp only [check_for_updates, load_version_info]
    rw [hl]
    simp only [VersionInfo.toRaw]
    rw [if_neg hcond]
    simp

/-! ## C7: silent check with matching commit skips the per-file loop -/

/-- **C7**: with `include_integrity = false` and a stored `last_commit`
equal to the latest remote commit id, the per-file loop is skipped: the
result reports `integrity_status = "ok"`, `needs_repair = false` and empty
file lists, and it is identical for any two environments that agree on the
commit endpoint - in particular it does not depend on the local files or
the per-file fetches, so local deletion or modification goes undetected. -/
theorem c7_skip_when_commit_matches (env env2 : Env) (store : Store)
    (latest : CommitInfo)
    (h1 : env.latestCommit = .ok latest) (h2 : env2.latestCommit = .ok latest)
    (hc : (load_version_info store).last_commit = some (some latest.sha)) :
    check_for_updates env store false = check_for_updates env2 store false ∧
    (check_for_updates env store false).integrity_status = "ok" ∧
    (check_for_updates env store false).needs_repair = false ∧
    (check_for_updates env store false).updates_available = false ∧
    (check_for_updates env store false).missing_files = [] ∧
    (check_for_updates env store false).corrupted_files = [] ∧
    (check_for_updates env store false).updated_files = [] := by
  have hres : ∀ e : Env, e.latestCommit = .ok latest →
      check_for_updates e store false =
      { error := false, message := none, updates_available := false,
        latest_commit := some latest, current_commit := some (some latest.sha),
        integrity_status := "ok", missing_files := [], corrupted_files := [],
        updated_files := [], needs_repair := false, can_repair := true } := by
    intro e he
    simp only [check_for_updates]
    rw [hc, he]
    simp only []
    rw [if_neg (by simp)]
  rw [hres env h1, hres env2 h2]
  exact ⟨rfl, rfl, rfl, rfl, rfl, rfl, rfl⟩

def storeC7 : Store :=
  .parsed ⟨some (some "c2"), some [("run_mcs.bat", "aa11")], some none⟩

def envC7b : Env :=
  { envBase with localFiles := fun _ => some "tampered content" }

theorem c7_witness :
    check_for_updates envBase storeC7 false = check_for_updates envC7b storeC7 false ∧
    (check_for_updates envBase storeC7 false).integrity_status = "ok" ∧
    (check_for_updates envBase storeC7 false).needs_repair = false ∧
    (check_for_updates envBase storeC7 false).updates_available = false ∧
    (check_for_updates envBase storeC7 false).missing_files = [] ∧
    (check_for_updates envBase storeC7 false).corrupted_files = [] ∧
    (check_for_updates envBase storeC7 false).updated_files = [] :=
  c7_skip_when_commit_matches envBase envC7b storeC7 ⟨"c2", "msg", "2025-01-02", "au"⟩
    rfl rfl rfl

/-! ## C2: classification of a mismatching file on a non-first-run install -/

/-- **C2**: on a non-first-run install, a tracked file whose live hash is
present and differs from the remote hash is classified corrupted when the
recorded hash is present (a genuine digest, hence nonempty) and the live
hash differs from it; otherwise corrupted when the stored `last_commit`
equals the latest remote commit id; otherwise update-available. -/
theorem c2_nonfirstrun_mismatch (env : Env) (v : VersionInfo) (latest : CommitInfo)
    (name content localContent : String)
    (hl : env.latestCommit = .ok latest)
    (hfr : is_first_run v.last_commit = false)
    (hf : env.fetchFile name = .ok content)
    (hloc : env.localFiles name = some localContent)
    (hne : env.hashFn localContent ≠ env.hashFn content)
    (hrec : hashesGet v.file_hashes name ≠ some "")
    (hname : name ∈ TRACKED_FILES) :
    name ∉ (check_for_updates env (.parsed v.toRaw) true).missing_files ∧
    (name ∈ (check_for_updates env (.parsed v.toRaw) true).corrupted_files ↔
      ((∃ r, hashesGet v.file_hashes name = some r ∧ env.hashFn localContent ≠ r) ∨
        v.last_commit = some latest.sha)) ∧
    (name ∈ (check_for_updates env (.parsed v.toRaw) true).updated_files ↔
      ¬((∃ r, hashesGet v.file_hashes name = some r ∧ env.hashFn localContent ≠ r) ∨
        v.last_commit = some latest.sha)) := by
  have hch : get_current_file_hash env name = some (env.hashFn localContent) := by
    simp [get_current_file_hash, hloc]
  have hentry : changedEntry env v.toRaw name =
      some (.ok name (hashesGet v.file_hashes name) (some (env.hashFn localContent))
        (env.hashFn content) content) := by
    rw [changedEntry_ok hf rfl, hch, if_pos]
    exact Or.inr (Or.inl (by simp [hne]))
  have hmem : ∀ cl : Classification,
      (name ∈ classifiedAs env v.last_commit (is_first_run v.last_commit) latest.sha cl
        (get_changed_files env (load_version_info (.parsed v.toRaw)))) ↔
      classifyOne env v.last_commit (is_first_run v.last_commit) latest.sha
        (.ok name (hashesGet v.file_hashes name) (some (env.hashFn localContent))
          (env.hashFn content) content) = cl := by
    intro cl
    rw [mem_classifiedAs]
    constructor
    · rintro ⟨-, fi, hfi, hcl⟩
      have heq : fi = _ := Option.some.inj ((hentry.symm.trans hfi).symm)
      rwa [heq] at hcl
    · intro hcl
      exact ⟨hname, _, hentry, hcl⟩
  have hclass : classifyOne env v.last_commit (is_first_run v.last_commit) latest.sha
      (.ok name (hashesGet v.file_hashes name) (some (env.hashFn localContent))
        (env.hashFn content) content) =
      if (∃ r, hashesGet v.file_hashes name = some r ∧ env.hashFn localContent ≠ r) ∨
          v.last_commit = some latest.sha then .corrupted else .updated := by
    simp only [classifyOne]
    rw [if_neg (by simp), if_pos (by simp [hne]), hfr]
    cases hg : hashesGet v.file_hashes name with
    | none =>
      rw [if_neg (by simp [pyTruthy])]
      by_cases hlc : v.last_commit = some latest.sha
      · rw [if_pos hlc, if_pos (Or.inr hlc)]
      · rw [if_neg hlc, if_neg (by simp), if_neg (by simp [hlc])]
    | some r =>
      have hrne : r.isEmpty = false := by
        cases hb : r.isEmpty with
        | false => rfl
        | true => exact absurd (hg.trans (by rw [(String.isEmpty_iff r).mp hb])) hrec
      by_cases hlr : env.hashFn localContent = r
      · rw [if_neg (by simp [hlr])]
        by_cases hlc : v.last_commit = some latest.sha
        · rw [if_pos hlc, if_pos (Or.inr hlc)]
        · rw [if_neg hlc, if_neg (by simp), if_neg]
          rintro (⟨r', hr', hner'⟩ | h)
          · exact hner' (hlr.trans (Option.some.inj hr'))
          · exact hlc h
      · rw [if_pos ⟨rfl, by simp [pyTruthy, hrne], by simp [hlr]⟩,
          if_pos (Or.inl ⟨r, rfl, hlr⟩)]
  rw [check_for_updates_loop env (.parsed v.toRaw) latest v.last_commit true hl rfl
    (Or.inl rfl)]
  simp only []
  refine ⟨?_, ?_, ?_⟩
  · intro hmm
    have := (hmem .missing).mp hmm
    rw [hclass] at this
    by_cases hP : (∃ r, hashesGet v.file_hashes name = some r ∧
        env.hashFn localContent ≠ r) ∨ v.last_commit = some latest.sha
    · rw [if_pos hP] at this; cases this
    · rw [if_neg hP] at this; cases this
  · rw [hmem .corrupted, hclass]
    by_cases hP : (∃ r, hashesGet v.file_hashes name = some r ∧
        env.hashFn localContent ≠ r) ∨ v.last_commit = some latest.sha
    · simp [hP]
    · simp [hP]
  · rw [hmem .updated, hclass]
    by_cases hP : (∃ r, hashesGet v.file_hashes name = some r ∧
        env.hashFn localContent ≠ r) ∨ v.last_commit = some latest.sha
    · simp [hP]
    · simp [hP]

def envC5 : Env :=
  { envBase with localFiles := fun n =>
      if n = "run_mcs.bat" then some "C-run_mcs.bat" else none }

def vC5 : VersionInfo := ⟨some "c1", [("run_mcs.bat", "stale-record")], none⟩

theorem c5_witness :
    envC5.fetchFile "run_mcs.bat" = .ok "C-run_mcs.bat" ∧
    envC5.localFiles "run_mcs.bat" = some "C-run_mcs.bat" ∧
    ((check_for_updates envC5 (.parsed vC5.toRaw) true).error = false ∧
      "run_mcs.bat" ∉ (check_for_updates envC5 (.parsed vC5.toRaw) true).missing_files ∧
      "run_mcs.bat" ∉ (check_for_updates envC5 (.parsed vC5.toRaw) true).corrupted_files ∧
      "run_mcs.bat" ∉ (check_for_updates envC5 (.parsed vC5.toRaw) true).updated_files) :=
  ⟨rfl, by decide,
    c5_live_eq_remote_healthy envC5 vC5 true ⟨"c2", "msg", "2025-01-02", "au"⟩
      "run_mcs.bat" "C-run_mcs.bat" "C-run_mcs.bat" rfl rfl (by decide) rfl⟩

def envC2 : Env :=
  { envBase with localFiles := fun n =>
      if n = "run_mcs.bat" then some "edited locally" else none }

def vC2 : VersionInfo := ⟨some "c1", [("run_mcs.bat", "#old")], none⟩

theorem c2_witness :
    is_first_run vC2.last_commit = false ∧
    envC2.hashFn "edited locally" ≠ envC2.hashFn "C-run_mcs.bat" ∧
    hashesGet vC2.file_hashes "run_mcs.bat" ≠ some "" ∧
    ("run_mcs.bat" ∉ (check_for_updates envC2 (.parsed vC2.toRaw) true).missing_files ∧
      ("run_mcs.bat" ∈ (check_for_updates envC2 (.parsed vC2.toRaw) true).corrupted_files ↔
        ((∃ r, hashesGet vC2.file_hashes "run_mcs.bat" = some r ∧
            envC2.hashFn "edited locally" ≠ r) ∨ vC2.last_commit = some "c2")) ∧
      ("run_mcs.bat" ∈ (check_for_updates envC2 (.parsed vC2.toRaw) true).updated_files ↔
        ¬((∃ r, hashesGet vC2.file_hashes "run_mcs.bat" = some r ∧
            envC2.hashFn "edited locally" ≠ r) ∨ vC2.last_commit = some "c2"))) :=
  ⟨rfl, by decide, by decide,
    c2_nonfirstrun_mismatch envC2 vC2 ⟨"c2", "msg", "2025-01-02", "au"⟩
      "run_mcs.bat" "C-run_mcs.bat" "edited locally" rfl rfl rfl (by decide)
      (by decide) (by decide) (by decide)⟩

/-! ## C3: first run never classifies corrupted -/

theorem decide_length_pos_nil (l : List String) :
    decide (0 < l.length + ([] : List String).length) = !l.isEmpty := by
  cases l <;> simp

theorem status_length_nil (l : List String) :
    (if 0 < l.length + ([] : List String).length then "critical" else "ok") =
      (if l.isEmpty = true then "ok" else "critical") := by
  cases l <;> simp

/-- **C3**: on a first-run install (stored commit absent), no tracked file
is classified corrupted whatever the recorded, live and remote hashes are;
a live/remote mismatch lands in no list, and the aggregate fields reflect
only the missing files.  (The latest commit id must not be the literal
string `"null"`, which `is_first_run` reserves as an absent marker.) -/
theorem c3_first_run_never_corrupted (env : Env) (v : VersionInfo)
    (latest : CommitInfo) (ii : Bool)
    (hl : env.latestCommit = .ok latest)
    (hfr : is_first_run v.last_commit = true)
    (hsha : latest.sha ≠ "null") :
    (check_for_updates env (.parsed v.toRaw) ii).error = false ∧
    (check_for_updates env (.parsed v.toRaw) ii).corrupted_files = [] ∧
    (check_for_updates env (.parsed v.toRaw) ii).updated_files = [] ∧
    (∀ name, env.localFiles name ≠ none →
      name ∉ (check_for_updates env (.parsed v.toRaw) ii).missing_files) ∧
    (check_for_updates env (.parsed v.toRaw) ii).needs_repair =
      !(check_for_updates env (.parsed v.toRaw) ii).missing_files.isEmpty ∧
    (check_for_updates env (.parsed v.toRaw) ii).integrity_status =
      (if (check_for_updates env (.parsed v.toRaw) ii).missing_files.isEmpty
       then "ok" else "critical") ∧
    (check_for_updates env (.parsed v.toRaw) ii).updates_available =
      !(check_for_updates env (.parsed v.toRaw) ii).missing_files.isEmpty := by
  have hlcne : v.last_commit ≠ some latest.sha := by
    intro h
    simp only [is_first_run, h] at hfr
    simp [hsha] at hfr
  have key : ∀ t fi, changedEntry env v.toRaw t = some fi →
      classifyOne env v.last_commit true latest.sha fi ≠ .corrupted ∧
      classifyOne env v.last_commit true latest.sha fi ≠ .updated ∧
      (env.localFiles t ≠ none →
        classifyOne env v.last_commit true latest.sha fi ≠ .missing) := by
    intro t fi he
    rcases changedEntry_shape he with ⟨msg, rfl⟩ | ⟨hs, rc, hhs, hfc, rfl⟩
    · simp only [classifyOne]
      by_cases hex : env.localFiles t = none
      · rw [if_pos hex]
        exact ⟨(fun h => by cases h), (fun h => by cases h), fun hne => absurd hex hne⟩
      · rw [if_neg hex, if_neg (by simp)]
        exact ⟨(fun h => by cases h), (fun h => by cases h), fun _ h => by cases h⟩
    · by_cases hex : env.localFiles t = none
      · have hch : get_current_file_hash env t = none := by
          simp [get_current_file_hash, hex]
        simp only [classifyOne]
        rw [if_pos hch]
        exact ⟨(fun h => by cases h), (fun h => by cases h), fun hne => absurd hex hne⟩
      · obtain ⟨lcon, hlcon⟩ : ∃ lcon, env.localFiles t = some lcon := by
          cases hE : env.localFiles t with
          | none => exact absurd hE hex
          | some x => exact ⟨x, rfl⟩
        have hch : get_current_file_hash env t = some (env.hashFn lcon) := by
          simp [get_current_file_hash, hlcon]
        simp only [classifyOne]
        rw [hch]
        by_cases heq : env.hashFn lcon = env.hashFn rc
        · rw [if_neg (by simp), if_neg (by simp [heq])]
          exact ⟨(fun h => by cases h), (fun h => by cases h), fun _ h => by cases h⟩
        · rw [if_neg (by simp), if_pos (by simp [heq]), if_neg (by simp),
            if_neg hlcne, if_pos trivial]
          exact ⟨(fun h => by cases h), (fun h => by cases h), fun _ h => by cases h⟩
  rw [check_for_updates_loop env (.parsed v.toRaw) latest v.last_commit ii hl rfl
    (Or.inr hlcne)]
  simp only []
  rw [hfr]
  have hC : classifiedAs env v.last_commit true latest.sha .corrupted
      (get_changed_files env (load_version_info (.parsed v.toRaw))) = [] :=
    classifiedAs_eq_nil (fun t fi _ he => (key t fi he).1)
  have hU : classifiedAs env v.last_commit true latest.sha .updated
      (get_changed_files env (load_version_info (.parsed v.toRaw))) = [] :=
    classifiedAs_eq_nil (fun t fi _ he => (key t fi he).2.1)
  rw [hC, hU]
  refine ⟨?_, ?_, ?_, ?_, ?_, ?_, ?_⟩
  · trivial
  · trivial
  · trivial
  · intro name hne hmm
    rcases mem_classifiedAs.mp hmm with ⟨-, fi, he, hcl⟩
    exact (key name fi he).2.2 hne hcl
  · exact decide_length_pos_nil _
  · exact status_length_nil _
  · rw [if_pos rfl]
    exact decide_length_pos_nil _

def envC3 : Env := { envBase with localFiles := fun _ => some "pre-existing stuff" }

def vC3 : VersionInfo := ⟨none, [], none⟩

theorem c3_witness :
    is_first_run vC3.last_commit = true ∧ ("c2" : String) ≠ "null" ∧
    ((check_for_updates envC3 (.parsed vC3.toRaw) true).error = false ∧
      (check_for_updates envC3 (.parsed vC3.toRaw) true).corrupted_files = [] ∧
      (check_for_updates envC3 (.parsed vC3.toRaw) true).updated_files = [] ∧
      (∀ name, envC3.localFiles name ≠ none →
        name ∉ (check_for_updates envC3 (.parsed vC3.toRaw) true).missing_files) ∧
      (check_for_updates envC3 (.parsed vC3.toRaw) true).needs_repair =
        !(check_for_updates envC3 (.parsed vC3.toRaw) true).missing_files.isEmpty ∧
      (check_for_updates envC3 (.parsed vC3.toRaw) true).integrity_status =
        (if (check_for_updates envC3 (.parsed vC3.toRaw) true).missing_files.isEmpty
         then "ok" else "critical") ∧
      (check_for_updates envC3 (.parsed vC3.toRaw) true).updates_available =
        !(check_for_updates envC3 (.parsed vC3.toRaw) true).missing_files.isEmpty) :=
  ⟨rfl, by decide,
    c3_first_run_never_corrupted envC3 vC3 ⟨"c2", "msg", "2025-01-02", "au"⟩ true
      rfl rfl (by decide)⟩

/-! ## C4: per-file fetch failures -/

def envC4 : Env :=
  { envBase with
      fetchFile := fun n =>
        if n = "run_mcs.bat" then .error "timed out" else .ok ("C-" ++ n),
      localFiles := fun n =>
        if n = "run_mcs.bat" then some "still here" else none }

def vC4 : VersionInfo := ⟨some "c1", [], none⟩

/-- **C4, counterexample**: the code has no fetch-error classification at
all.  For a tracked file whose remote fetch fails while the file is present
locally (non-first-run install), the file is put in the *corrupted* list -
not reported as a distinct fetch-error - so the claim that the classifier
assigns `fetch-error` to every fetch-failed, locally present file is false
on the code. -/
theorem c4_counterexample :
    "run_mcs.bat" ∈ (check_for_updates envC4 (.parsed vC4.toRaw) true).corrupted_files ∧
    (check_for_updates envC4 (.parsed vC4.toRaw) true).error = false := by
  decide

/-- **C4, amended**: a per-file fetch failure never escalates to a
top-level error of the whole check; a fetch-failed file that is absent
locally is classified missing; one that is present locally is classified
*corrupted* on a non-first-run install (the code's stand-in for the spec's
fetch-error), and is left entirely unclassified on a first-run install. -/
theorem c4_fetch_error_classification (env : Env) (v : VersionInfo)
    (latest : CommitInfo) (name msg : String)
    (hl : env.latestCommit = .ok latest)
    (hf : env.fetchFile name = .error msg)
    (hname : name ∈ TRACKED_FILES) :
    (check_for_updates env (.parsed v.toRaw) true).error = false ∧
    (env.localFiles name = none →
      name ∈ (check_for_updates env (.parsed v.toRaw) true).missing_files ∧
      name ∉ (check_for_updates env (.parsed v.toRaw) true).corrupted_files ∧
      name ∉ (check_for_updates env (.parsed v.toRaw) true).updated_files) ∧
    (env.localFiles name ≠ none → is_first_run v.last_commit = false →
      name ∈ (check_for_updates env (.parsed v.toRaw) true).corrupted_files ∧
      name ∉ (check_for_updates env (.parsed v.toRaw) true).missing_files ∧
      name ∉ (check_for_updates env (.parsed v.toRaw) true).updated_files) ∧
    (env.localFiles name ≠ none → is_first_run v.last_commit = true →
      name ∉ (check_for_updates env (.parsed v.toRaw) true).missing_files ∧
      name ∉ (check_for_updates env (.parsed v.toRaw) true).corrupted_files ∧
      name ∉ (check_for_updates env (.parsed v.toRaw) true).updated_files) := by
  have hentry : changedEntry env v.toRaw name =
      some (.err name ("Failed to download " ++ name ++ ": " ++ msg)) := by
    unfold changedEntry
    rw [hf]
  have hmem : ∀ cl : Classification,
      (name ∈ classifiedAs env v.last_commit (is_first_run v.last_commit) latest.sha cl
        (get_changed_files env (load_version_info (.parsed v.toRaw)))) ↔
      classifyOne env v.last_commit (is_first_run v.last_commit) latest.sha
        (.err name ("Failed to download " ++ name ++ ": " ++ msg)) = cl := by
    intro cl
    rw [mem_classifiedAs]
    constructor
    · rintro ⟨-, fi, hfi, hcl⟩
      have heq : fi = _ := Option.some.inj ((hentry.symm.trans hfi).symm)
      rwa [heq] at hcl
    · intro hcl
      exact ⟨hname, _, hentry, hcl⟩
  rw [check_for_updates_loop env (.parsed v.toRaw) latest v.last_commit true hl rfl
    (Or.inl rfl)]
  simp only []
  refine ⟨?_, ?_, ?_, ?_⟩
  · trivial
  · intro hex
    have hcl : classifyOne env v.last_commit (is_first_run v.last_commit) latest.sha
        (.err name ("Failed to download " ++ name ++ ": " ++ msg)) = .missing := by
      simp only [classifyOne]
      rw [if_pos hex]
    refine ⟨(hmem .missing).mpr hcl, ?_, ?_⟩
    · intro hmm
      have h2 := (hmem .corrupted).mp hmm
      rw [hcl] at h2
      cases h2
    · intro hmm
      have h2 := (hmem .updated).mp hmm
      rw [hcl] at h2
      cases h2
  · intro hex hfr
    have hcl : classifyOne env v.last_commit (is_first_run v.last_commit) latest.sha
        (.err name ("Failed to download " ++ name ++ ": " ++ msg)) = .corrupted := by
      simp only [classifyOne]
      rw [if_neg hex, hfr, if_pos rfl]
    refine ⟨(hmem .corrupted).mpr hcl, ?_, ?_⟩
    · intro hmm
      have h2 := (hmem .missing).mp hmm
      rw [hcl] at h2
      cases h2
    · intro hmm
      have h2 := (hmem .updated).mp hmm
      rw [hcl] at h2
      cases h2
  · intro hex hfr
    have hcl : classifyOne env v.last_commit (is_first_run v.last_commit) latest.sha
        (.err name ("Failed to download " ++ name ++ ": " ++ msg)) = .none_ := by
      simp only [classifyOne]
      rw [if_neg hex, hfr, if_neg (by simp)]
    refine ⟨?_, ?_, ?_⟩ <;>
    · intro hmm
      first
      | (have h2 := (hmem .missing).mp hmm
         rw [hcl] at h2
         cases h2)
      | (have h2 := (hmem .corrupted).mp hmm
         rw [hcl] at h2
         cases h2)
      | (have h2 := (hmem .updated).mp hmm
         rw [hcl] at h2
         cases h2)

def envC4w : Env :=
  { envBase with
      fetchFile := fun n =>
        if n = "finders/steam_finder.py" then .error "connection reset"
        else .ok ("C-" ++ n) }

theorem c4_witness :
    envC4w.fetchFile "finders/steam_finder.py" = .error "connection reset" ∧
    ((check_for_updates envC4w (.parsed vC4.toRaw) true).error = false ∧
      (envC4w.localFiles "finders/steam_finder.py" = none →
        "finders/steam_finder.py" ∈
          (check_for_updates envC4w (.parsed vC4.toRaw) true).missing_files ∧
        "finders/steam_finder.py" ∉
          (check_for_updates envC4w (.parsed vC4.toRaw) true).corrupted_files ∧
        "finders/steam_finder.py" ∉
          (check_for_updates envC4w (.parsed vC4.toRaw) true).updated_files) ∧
      (envC4w.localFiles "finders/steam_finder.py" ≠ none →
        is_first_run vC4.last_commit = false →
        "finders/steam_finder.py" ∈
          (check_for_updates envC4w (.parsed vC4.toRaw) true).corrupted_files ∧
        "finders/steam_finder.py" ∉
          (check_for_updates envC4w (.parsed vC4.toRaw) true).missing_files ∧
        "finders/steam_finder.py" ∉
          (check_for_updates envC4w (.parsed vC4.toRaw) true).updated_files) ∧
      (envC4w.localFiles "finders/steam_finder.py" ≠ none →
        is_first_run vC4.last_commit = true →
        "finders/steam_finder.py" ∉
          (check_for_updates envC4w (.parsed vC4.toRaw) true).missing_files ∧
        "finders/steam_finder.py" ∉
          (check_for_updates envC4w (.parsed vC4.toRaw) true).corrupted_files ∧
        "finders/steam_finder.py" ∉
          (check_for_updates envC4w (.parsed vC4.toRaw) true).updated_files)) :=
  ⟨rfl,
    c4_fetch_error_classification envC4w vC4 ⟨"c2", "msg", "2025-01-02", "au"⟩
      "finders/steam_finder.py" "connection reset" rfl rfl (by decide)⟩

/-! ## C1: a partial update batch still advances the record -/

def envC1 : Env :=
  { envBase with
      latestCommit := .ok ⟨"SHA2", "msg", "2025-01-02", "au"⟩,
      writeErr := fun n => if n = "run_mcs.bat" then some "disk full" else none }

def vC1 : VersionInfo := ⟨some "SHA0", [], none⟩

/-- **C1**: evaluation of `perform_update` at a failing input.  All eight
tracked files are fetched and written, but the write of `run_mcs.bat`
fails.  The update still reports success, and the saved record both stamps
`last_commit` with the new commit id and records the remote hash of
`run_mcs.bat` - the very file that was never written - so a partial batch
does advance the recorded commit past what was actually written,
contradicting the claim (and the code's own comment "Update file hashes
for successfully updated files", source line 441). -/
theorem c1_partial_batch_eval :
    (perform_update envC1 (.parsed vC1.toRaw) false).1.status = "success" ∧
    "run_mcs.bat: disk full" ∈
      (perform_update envC1 (.parsed vC1.toRaw) false).1.failed_files ∧
    (perform_update envC1 (.parsed vC1.toRaw) false).2.2.1 "run_mcs.bat" = none ∧
    lastCommitOf (perform_update envC1 (.parsed vC1.toRaw) false).2.1 = some "SHA2" ∧
    recordedHash (perform_update envC1 (.parsed vC1.toRaw) false).2.1 "run_mcs.bat" =
      some (envC1.hashFn "C-run_mcs.bat") := by
  decide

/-! ## C6: repair and the version record -/

def envC6 : Env :=
  { envBase with
      latestCommit := .ok ⟨"SHA2", "msg", "2025-01-02", "au"⟩,
      localFiles := fun n =>
        if n = "run_mcs.bat" then none
        else if n = "finders/steam_finder.py" then some "tampered"
        else some ("C-" ++ n),
      writeErr := fun n => if n = "run_mcs.bat" then some "disk full" else none }

def vC6 : VersionInfo := ⟨some "SHA0", [("finders/steam_finder.py", "zzz")], none⟩

/-- **C6, counterexample**: `run_mcs.bat` is missing and its repair fails;
`finders/steam_finder.py` is corrupted and its repair succeeds (its on-disk
content now equals the fetched remote content).  The run exits 1 *before
touching the version record*: even the successfully repaired file keeps its
stale recorded hash `"zzz"`, so hashes are not "updated exactly for the
files that were actually repaired". -/
theorem c6_counterexample :
    (repair_run envC6 (.parsed vC6.toRaw) false).1.exitCode = 1 ∧
    (repair_run envC6 (.parsed vC6.toRaw) false).1.repairedCount = 1 ∧
    (repair_run envC6 (.parsed vC6.toRaw) false).1.failed_repairs = ["run_mcs.bat"] ∧
    (repair_run envC6 (.parsed vC6.toRaw) false).2.2.1 "finders/steam_finder.py" =
      some "C-finders/steam_finder.py" ∧
    (repair_run envC6 (.parsed vC6.toRaw) false).2.1 = .parsed vC6.toRaw ∧
    recordedHash (repair_run envC6 (.parsed vC6.toRaw) false).2.1
      "finders/steam_finder.py" = some "zzz" := by
  decide

/-- Lookup into a raw record's hash map (`none` when the key is absent or
the record has no `file_hashes` key). -/
def rawHashLookup (r : RawVersionInfo) (k : String) : Option String :=
  match r.file_hashes with
  | some hsl => hashesGet hsl k
  | none => none

theorem recordedHash_parsed (r : RawVersionInfo) (k : String) :
    recordedHash (.parsed r) k = rawHashLookup r k := rfl

theorem hashesGet_cons (x : String × String) (l : List (String × String))
    (p : String) :
    hashesGet (x :: l) p = if x.1 = p then some x.2 else hashesGet l p := by
  simp only [hashesGet, List.find?]
  by_cases h : x.1 = p
  · simp [h]
  · simp [h]

theorem hashesGet_map_set_self : ∀ (hs : List (String × String)) (k v : String),
    (hs.find? (fun p => p.1 = k)).isSome = true →
    hashesGet (hs.map fun q => if q.1 = k then (k, v) else q) k = some v := by
  intro hs k v
  induction hs with
  | nil => intro h; simp at h
  | cons a rest ih =>
    intro h
    by_cases hak : a.1 = k
    · rw [List.map_cons, if_pos hak, hashesGet_cons, if_pos rfl]
    · rw [List.map_cons, if_neg hak, hashesGet_cons, if_neg hak]
      apply ih
      simpa [List.find?, hak] using h

theorem hashesGet_append_single_self : ∀ (hs : List (String × String)) (k v : String),
    ¬(hs.find? (fun p => p.1 = k)).isSome = true →
    hashesGet (hs ++ [(k, v)]) k = some v := by
  intro hs k v
  induction hs with
  | nil => intro _; rw [List.nil_append, hashesGet_cons, if_pos rfl]
  | cons a rest ih =>
    intro h
    by_cases hak : a.1 = k
    · exact absurd (by simp [List.find?, hak]) h
    · rw [List.cons_append, hashesGet_cons, if_neg hak]
      exact ih (fun hres => h (by simp [List.find?, hak, hres]))

theorem hashesGet_hashesSet_self (hs : List (String × String)) (k v : String) :
    hashesGet (hashesSet hs k v) k = some v := by
  unfold hashesSet
  by_cases h : (hs.find? (fun p => p.1 = k)).isSome = true
  · rw [if_pos h]
    exact hashesGet_map_set_self hs k v h
  · rw [if_neg h]
    exact hashesGet_append_single_self hs k v h

theorem hashesGet_map_set (hs : List (String × String)) (k v p : String)
    (hp : p ≠ k) :
    hashesGet (hs.map fun q => if q.1 = k then (k, v) else q) p = hashesGet hs p := by
  induction hs with
  | nil => rfl
  | cons a rest ih =>
    by_cases hak : a.1 = k
    · rw [List.map_cons, if_pos hak, hashesGet_cons, hashesGet_cons,
        if_neg (show ¬((k, v) : String × String).1 = p from fun hh => hp hh.symm),
        if_neg (show ¬a.1 = p from fun hh => hp ((hak ▸ hh).symm))]
      exact ih
    · rw [List.map_cons, if_neg hak, hashesGet_cons, hashesGet_cons]
      by_cases hap : a.1 = p
      · rw [if_pos hap, if_pos hap]
      · rw [if_neg hap, if_neg hap]
        exact ih

theorem hashesGet_append_single (hs : List (String × String)) (k v p : String)
    (hp : p ≠ k) :
    hashesGet (hs ++ [(k, v)]) p = hashesGet hs p := by
  induction hs with
  | nil =>
    rw [List.nil_append, hashesGet_cons,
      if_neg (show ¬((k, v) : String × String).1 = p from fun hh => hp hh.symm)]
  | cons a rest ih =>
    rw [List.cons_append, hashesGet_cons, hashesGet_cons]
    by_cases hap : a.1 = p
    · rw [if_pos hap, if_pos hap]
    · rw [if_neg hap, if_neg hap]
      exact ih

theorem hashesGet_hashesSet_other (hs : List (String × String)) (k v p : String)
    (hp : p ≠ k) : hashesGet (hashesSet hs k v) p = hashesGet hs p := by
  unfold hashesSet
  by_cases h : (hs.find? (fun p => p.1 = k)).isSome = true
  · rw [if_pos h]
    exact hashesGet_map_set hs k v p hp
  · rw [if_neg h]
    exact hashesGet_append_single hs k v p hp

theorem tracked_nodup : TRACKED_FILES.Nodup := by decide

theorem tracked_no_backup :
    ∀ a ∈ TRACKED_FILES, ∀ b ∈ TRACKED_FILES, a ≠ backupName b := by decide

theorem map_name_filterMap_sublist (env : Env) (raw : RawVersionInfo)
    (l : List String) :
    ((l.filterMap (changedEntry env raw)).map ChangedFile.name).Sublist l := by
  induction l with
  | nil => simp
  | cons a rest ih =>
    rw [List.filterMap_cons]
    cases he : changedEntry env raw a with
    | none => exact ih.cons a
    | some fi =>
      rw [List.map_cons, changedEntry_name he]
      exact ih.cons₂ a

theorem classifiedAs_sublist (env : Env) (lc : Option String) (fr : Bool)
    (sha : String) (cl : Classification) (changed : List ChangedFile) :
    (classifiedAs env lc fr sha cl changed).Sublist (changed.map ChangedFile.name) :=
  List.Sublist.map ChangedFile.name (List.filter_sublist changed)

theorem classifiedAs_nodup (env : Env) (raw : RawVersionInfo) (lc : Option String)
    (fr : Bool) (sha : String) (cl : Classification) :
    (classifiedAs env lc fr sha cl (get_changed_files env raw)).Nodup :=
  (((classifiedAs_sublist env lc fr sha cl _).trans
      (map_name_filterMap_sublist env raw TRACKED_FILES)).nodup tracked_nodup)

theorem classifiedAs_disjoint (env : Env) (raw : RawVersionInfo) (lc : Option String)
    (fr : Bool) (sha : String) (cl₁ cl₂ : Classification) (hne : cl₁ ≠ cl₂) :
    ∀ name, name ∈ classifiedAs env lc fr sha cl₁ (get_changed_files env raw) →
      name ∉ classifiedAs env lc fr sha cl₂ (get_changed_files env raw) := by
  intro name h1 h2
  rcases mem_classifiedAs.mp h1 with ⟨-, fi1, he1, hc1⟩
  rcases mem_classifiedAs.mp h2 with ⟨-, fi2, he2, hc2⟩
  have heq : fi1 = fi2 := Option.some.inj (he1.symm.trans he2)
  exact hne (hc1.symm.trans (heq ▸ hc2))

theorem targets_nodup (env : Env) (raw : RawVersionInfo) (lc : Option String)
    (fr : Bool) (sha : String) :
    (classifiedAs env lc fr sha .missing (get_changed_files env raw) ++
      classifiedAs env lc fr sha .corrupted (get_changed_files env raw)).Nodup := by
  rw [List.nodup_append]
  exact ⟨classifiedAs_nodup env raw lc fr sha .missing,
    classifiedAs_nodup env raw lc fr sha .corrupted,
    fun name h1 => classifiedAs_disjoint env raw lc fr sha .missing .corrupted
      (by intro h; cases h) name h1⟩

theorem repairOne_frame (env : Env) (d : Disk) (name p : String)
    (h1 : p ≠ name) (h2 : p ≠ backupName name) :
    (repairOne env d name).1 p = d p := by
  unfold repairOne
  cases hf : env.fetchFile name with
  | error e => rfl
  | ok c =>
    simp only []
    cases hm : env.mkdirErr name with
    | some e => rfl
    | none =>
      simp only []
      cases hd : d name with
      | some old =>
        simp only []
        by_cases hr : env.renameOk name = true
        · rw [if_pos hr]
          cases hw : env.writeErr name with
          | none => simp [h1, h2]
          | some e => simp [h1, h2]
        · rw [if_neg hr]
      | none =>
        simp only []
        cases hw : env.writeErr name with
        | none => simp [h1]
        | some e => rfl

theorem repairOne_ok_disk (env : Env) (d : Disk) (name : String)
    (h : (repairOne env d name).2.2 = true) :
    ∃ c, env.fetchFile name = .ok c ∧ (repairOne env d name).1 name = some c := by
  unfold repairOne at h ⊢
  cases hf : env.fetchFile name with
  | error e => rw [hf] at h; simp at h
  | ok c =>
    rw [hf] at h
    simp only [] at h ⊢
    cases hm : env.mkdirErr name with
    | some e => rw [hm] at h; simp at h
    | none =>
      rw [hm] at h
      simp only [] at h ⊢
      cases hd : d name with
      | some old =>
        rw [hd] at h
        simp only [] at h ⊢
        by_cases hr : env.renameOk name = true
        · rw [if_pos hr] at h ⊢
          cases hw : env.writeErr name with
          | none => exact ⟨c, rfl, by simp⟩
          | some e => rw [hw] at h; simp at h
        · rw [if_neg hr] at h; simp at h
      | none =>
        rw [hd] at h
        simp only [] at h ⊢
        cases hw : env.writeErr name with
        | none => exact ⟨c, rfl, by simp⟩
        | some e => rw [hw] at h; simp at h

theorem repairLoop_frame (env : Env) (ts : List String) :
    ∀ d p, p ∉ ts → (∀ t ∈ ts, p ≠ backupName t) →
      (repairLoop env d ts).1 p = d p := by
  induction ts with
  | nil => intro d p _ _; rfl
  | cons a rest ih =>
    intro d p hp hb
    have hpa : p ≠ a := fun hh => hp (hh ▸ List.mem_cons_self a rest)
    have hpr : p ∉ rest := fun hh => hp (List.mem_cons_of_mem a hh)
    simp only [repairLoop]
    rw [ih _ p hpr (fun t ht => hb t (List.mem_cons_of_mem a ht))]
    exact repairOne_frame env d a p hpa (hb a (List.mem_cons_self a rest))

theorem repairLoop_ok_disk (env : Env) (ts : List String) :
    ∀ d, ts.Nodup → (∀ a ∈ ts, ∀ b ∈ ts, a ≠ backupName b) →
      (repairLoop env d ts).2.2.2 = [] →
      ∀ name ∈ ts, ∃ c, env.fetchFile name = .ok c ∧
        (repairLoop env d ts).1 name = some c := by
  induction ts with
  | nil => simp
  | cons a rest ih =>
    intro d hnd hnb hfail name hmem
    simp only [repairLoop] at hfail ⊢
    cases hok : (repairOne env d a).2.2 with
    | false => rw [hok] at hfail; simp at hfail
    | true =>
      rw [hok] at hfail
      simp only [if_pos rfl] at hfail
      rcases List.mem_cons.mp hmem with rfl | hmr
      · obtain ⟨c, hfc, hdc⟩ := repairOne_ok_disk env d name hok
        refine ⟨c, hfc, ?_⟩
        rw [repairLoop_frame env rest _ name (List.nodup_cons.mp hnd).1
          (fun t ht => hnb name (List.mem_cons_self name rest) t
            (List.mem_cons_of_mem name ht))]
        exact hdc
      · exact ih _ (List.nodup_cons.mp hnd).2
          (fun x hx y hy => hnb x (List.mem_cons_of_mem a hx) y
            (List.mem_cons_of_mem a hy)) hfail name hmr

theorem repairRecord_ok (env : Env) (disk : Disk) :
    ∀ ts : List String, ts.Nodup → ∀ cv : RawVersionInfo, cv.file_hashes ≠ none →
      ∃ cv', repairRecord env disk [] cv ts = .ok cv' ∧
        (∀ p, p ∉ ts → rawHashLookup cv' p = rawHashLookup cv p) ∧
        (∀ p ∈ ts, ∀ c, disk p = some c → env.hashFn c ≠ "" →
          rawHashLookup cv' p = some (env.hashFn c)) := by
  intro ts
  induction ts with
  | nil =>
    intro _ cv _
    exact ⟨cv, rfl, fun p _ => rfl, by simp⟩
  | cons a rest ih =>
    intro hnd cv hfh
    have hna : a ∉ rest := (List.nodup_cons.mp hnd).1
    have hnd' : rest.Nodup := (List.nodup_cons.mp hnd).2
    simp only [repairRecord, List.mem_nil_iff, if_neg (fun hh => hh)]
    cases hda : disk a with
    | none =>
      simp only [Option.map_none']
      obtain ⟨cv', heq, hpres, hmain⟩ := ih hnd' cv hfh
      refine ⟨cv', heq, ?_, ?_⟩
      · intro p hp
        exact hpres p (fun hh => hp (List.mem_cons_of_mem a hh))
      · intro p hp c hc hne
        rcases List.mem_cons.mp hp with rfl | hpr
        · rw [hda] at hc; cases hc
        · exact hmain p hpr c hc hne
    | some c0 =>
      simp only [Option.map_some']
      by_cases hemp : (env.hashFn c0).isEmpty = true
      · rw [if_pos hemp]
        obtain ⟨cv', heq, hpres, hmain⟩ := ih hnd' cv hfh
        refine ⟨cv', heq, ?_, ?_⟩
        · intro p hp
          exact hpres p (fun hh => hp (List.mem_cons_of_mem a hh))
        · intro p hp c hc hne
          rcases List.mem_cons.mp hp with rfl | hpr
          · rw [hda] at hc
            injection hc with hc
            exact absurd ((String.isEmpty_iff _).mp (hc ▸ hemp)) hne
          · exact hmain p hpr c hc hne
      · rw [if_neg hemp]
        cases hfhe : cv.file_hashes with
        | none => exact absurd hfhe hfh
        | some hsl =>
          simp only []
          obtain ⟨cv', heq, hpres, hmain⟩ :=
            ih hnd' { cv with file_hashes := some (hashesSet hsl a (env.hashFn c0)) }
              (by simp)
          refine ⟨cv', heq, ?_, ?_⟩
          · intro p hp
            have hpa : p ≠ a := fun hh => hp (hh ▸ List.mem_cons_self a rest)
            rw [hpres p (fun hh => hp (List.mem_cons_of_mem a hh))]
            simp only [rawHashLookup, hfhe]
            exact hashesGet_hashesSet_other hsl a (env.hashFn c0) p hpa
          · intro p hp c hc hne
            rcases List.mem_cons.mp hp with rfl | hpr
            · rw [hda] at hc
              injection hc with hc
              subst hc
              rw [hpres p hna]
              simp only [rawHashLookup]
              exact hashesGet_hashesSet_self hsl p _
            · exact hmain p hpr c hc hne

theorem cleanup_backups_frame (env : Env) (bks : List (Option String)) :
    ∀ d p, (∀ b : String, some b ∈ bks → p ≠ b) →
      (cleanup_backups env d bks).1 p = d p := by
  induction bks with
  | nil => intro d p _; rfl
  | cons ob rest ih =>
    intro d p hb
    cases ob with
    | none => exact ih d p (fun b hbm => hb b (List.mem_cons_of_mem none hbm))
    | some b =>
      have hpb : p ≠ b := hb b (List.mem_cons_self (some b) rest)
      have hb' : ∀ b' : String, some b' ∈ rest → p ≠ b' :=
        fun b' hbm => hb b' (List.mem_cons_of_mem (some b) hbm)
      simp only [cleanup_backups]
      by_cases hex : d b ≠ none
      · rw [if_pos hex]
        cases hde : env.deleteErr b with
        | none =>
          simp only []
          rw [ih _ p hb']
          simp [hpb]
        | some e =>
          simp only []
          exact ih d p hb'
      · rw [if_neg hex]
        exact ih d p hb'

/-- Every branch of the `--repair` run either reports no failed repairs or
exits 1 with the store untouched. -/
theorem repair_run_failed_cases (env : Env) (store : Store) (kb : Bool) :
    (repair_run env store kb).1.failed_repairs = [] ∨
    ((repair_run env store kb).1.exitCode = 1 ∧
      (repair_run env store kb).2.1 = store) := by
  unfold repair_run
  simp only []
  split
  · split
    · split
      · exact .inl rfl
      · split
        · exact .inr ⟨rfl, rfl⟩
        · rename_i hcond
          split
          · exact .inl (not_not.mp hcond)
          · split
            · exact .inl (not_not.mp hcond)
            · exact .inl (not_not.mp hcond)
    · exact .inl rfl
  · exact .inl rfl

/-- The reported `failed_repairs` list when the repair loop ran and some
repair failed. -/
theorem repair_run_failed_eq (env : Env) (store : Store) (kb : Bool)
    (latest : CommitInfo) (hl : env.latestCommit = .ok latest)
    (hcrit : (check_for_updates env store true).integrity_status = "critical")
    (T : List String)
    (hT : T = (check_for_updates env store true).missing_files ++
      (check_for_updates env store true).corrupted_files)
    (hTne : T ≠ [])
    (hrlne : (repairLoop env env.localFiles T).2.2.2 ≠ []) :
    (repair_run env store kb).1.failed_repairs =
      (repairLoop env env.localFiles T).2.2.2 := by
  unfold repair_run
  simp only []
  rw [if_pos hcrit, ← hT, if_pos hTne, hl]
  simp only []
  rw [if_pos hrlne]

/-- The store and disk produced by a fully successful repair run. -/
theorem repair_run_success (env : Env) (store : Store) (kb : Bool)
    (latest : CommitInfo) (hl : env.latestCommit = .ok latest)
    (hcrit : (check_for_updates env store true).integrity_status = "critical")
    (T : List String)
    (hT : T = (check_for_updates env store true).missing_files ++
      (check_for_updates env store true).corrupted_files)
    (hTne : T ≠ [])
    (hrl : (repairLoop env env.localFiles T).2.2.2 = [])
    (cv' : RawVersionInfo)
    (hrr : repairRecord env (repairLoop env env.localFiles T).1 []
      { load_version_info store with last_commit := some (some latest.sha) } T =
        .ok cv')
    (hsave : env.saveOk = true) :
    (repair_run env store kb).2.1 = .parsed cv' ∧
    (∀ p, (∀ b ∈ T, p ≠ backupName b) →
      (repair_run env store kb).2.2.1 p = (repairLoop env env.localFiles T).1 p) := by
  unfold repair_run
  simp only []
  rw [if_pos hcrit, ← hT, if_pos hTne, hl]
  simp only []
  rw [if_neg (not_not_intro hrl), hrl, hrr]
  simp only []
  unfold save_version_info
  rw [if_pos hsave]
  simp only []
  by_cases hkb : kb = true
  · rw [if_pos hkb]
    exact ⟨rfl, fun p _ => rfl⟩
  · rw [if_neg hkb]
    refine ⟨rfl, fun p hp => ?_⟩
    apply cleanup_backups_frame
    intro b hbm
    rcases List.mem_filterMap.mp hbm with ⟨t, ht, hft⟩
    by_cases htf : t ∈ ([] : List String)
    · rw [if_pos htf] at hft; cases hft
    · rw [if_neg htf] at hft
      by_cases hbk : (repairLoop env env.localFiles T).1 (backupName t) ≠ none
      · rw [if_pos hbk] at hft
        cases Option.some.inj hft
        exact hp t ht
      · rw [if_neg hbk] at hft
        cases hft

/-- The record-update loop of the repair branch only touches `file_hashes`:
the `last_commit` value it was handed (stamped at source line 635) survives
unchanged. -/
theorem repairRecord_last_commit (env : Env) (disk : Disk) (failed : List String) :
    ∀ (ts : List String) (cv cv' : RawVersionInfo),
      repairRecord env disk failed cv ts = .ok cv' →
      cv'.last_commit = cv.last_commit := by
  intro ts
  induction ts with
  | nil =>
    intro cv cv' h
    injection h with h
    rw [← h]
  | cons a rest ih =>
    intro cv cv' h
    simp only [repairRecord] at h
    by_cases ha : a ∈ failed
    · rw [if_pos ha] at h
      exact ih cv cv' h
    · rw [if_neg ha] at h
      cases hda : (disk a).map env.hashFn with
      | none =>
        rw [hda] at h
        exact ih cv cv' h
      | some h0 =>
        rw [hda] at h
        simp only [] at h
        by_cases hemp : h0.isEmpty = true
        · rw [if_pos hemp] at h
          exact ih cv cv' h
        · rw [if_neg hemp] at h
          cases hfh : cv.file_hashes with
          | none =>
            rw [hfh] at h
            simp only [] at h
            cases h
          | some hsl =>
            rw [hfh] at h
            simp only [] at h
            exact ih { cv with file_hashes := some (hashesSet hsl a h0) } cv' h

/-- **C6, amended**: when any repair fails, the `--repair` run exits with
code 1 *before* touching the version record: the store is unchanged, so
even files that were successfully rewritten keep their old recorded
hashes, and the failures are reported in `failed_repairs`.  Only when
every targeted repair succeeds (and the record save succeeds) is the
record updated: `lastCommit` is stamped with the latest commit id, each
target's on-disk content then equals its fetched remote content, and its
recorded hash is the hash of that content. -/
theorem c6_repair_record_update (env : Env) (v : VersionInfo) (kb : Bool) :
    ((repair_run env (.parsed v.toRaw) kb).1.failed_repairs ≠ [] →
      (repair_run env (.parsed v.toRaw) kb).1.exitCode = 1 ∧
      (repair_run env (.parsed v.toRaw) kb).2.1 = .parsed v.toRaw) ∧
    (∀ latest, env.latestCommit = .ok latest →
      env.saveOk = true →
      (∀ s, env.hashFn s ≠ "") →
      (repair_run env (.parsed v.toRaw) kb).1.failed_repairs = [] →
      ∀ name ∈ (check_for_updates env (.parsed v.toRaw) true).missing_files ++
          (check_for_updates env (.parsed v.toRaw) true).corrupted_files,
        lastCommitOf (repair_run env (.parsed v.toRaw) kb).2.1 = some latest.sha ∧
        ∃ c, env.fetchFile name = .ok c ∧
          (repair_run env (.parsed v.toRaw) kb).2.2.1 name = some c ∧
          recordedHash (repair_run env (.parsed v.toRaw) kb).2.1 name =
            some (env.hashFn c)) := by
  constructor
  · intro hne
    rcases repair_run_failed_cases env (.parsed v.toRaw) kb with h | h
    · exact absurd h hne
    · exact h
  · intro latest hl hsave hhash hfail name hmem
    have hchk := check_for_updates_loop env (.parsed v.toRaw) latest v.last_commit
      true hl rfl (Or.inl rfl)
    have hmem2 := hmem
    rw [hchk] at hmem2
    simp only [] at hmem2
    have hcrit :
        (check_for_updates env (.parsed v.toRaw) true).integrity_status =
          "critical" := by
      rw [hchk]
      simp only []
      rw [if_pos ?_]
      rw [← List.length_append]
      exact List.length_pos.mpr (List.ne_nil_of_mem hmem2)
    have hTnd : ((check_for_updates env (.parsed v.toRaw) true).missing_files ++
        (check_for_updates env (.parsed v.toRaw) true).corrupted_files).Nodup := by
      rw [hchk]
      simp only []
      exact targets_nodup env (load_version_info (.parsed v.toRaw)) v.last_commit
        (is_first_run v.last_commit) latest.sha
    have hTT : ∀ x, x ∈
        (check_for_updates env (.parsed v.toRaw) true).missing_files ++
          (check_for_updates env (.parsed v.toRaw) true).corrupted_files →
        x ∈ TRACKED_FILES := by
      intro x hx
      rw [hchk] at hx
      simp only [] at hx
      rcases List.mem_append.mp hx with h | h
      · exact (mem_classifiedAs.mp h).1
      · exact (mem_classifiedAs.mp h).1
    have hTb : ∀ a, a ∈
        (check_for_updates env (.parsed v.toRaw) true).missing_files ++
          (check_for_updates env (.parsed v.toRaw) true).corrupted_files →
        ∀ b, b ∈
        (check_for_updates env (.parsed v.toRaw) true).missing_files ++
          (check_for_updates env (.parsed v.toRaw) true).corrupted_files →
        a ≠ backupName b :=
      fun a ha b hb => tracked_no_backup a (hTT a ha) b (hTT b hb)
    by_cases hrl :
        (repairLoop env env.localFiles
          ((check_for_updates env (.parsed v.toRaw) true).missing_files ++
            (check_for_updates env (.parsed v.toRaw) true).corrupted_files)).2.2.2 = []
    · obtain ⟨cv', heq, hpres, hmain⟩ := repairRecord_ok env
        (repairLoop env env.localFiles
          ((check_for_updates env (.parsed v.toRaw) true).missing_files ++
            (check_for_updates env (.parsed v.toRaw) true).corrupted_files)).1
        ((check_for_updates env (.parsed v.toRaw) true).missing_files ++
          (check_for_updates env (.parsed v.toRaw) true).corrupted_files)
        hTnd
        { load_version_info (.parsed v.toRaw) with
          last_commit := some (some latest.sha) }
        (by simp [load_version_info, VersionInfo.toRaw])
      obtain ⟨hstore, hdisk⟩ := repair_run_success env (.parsed v.toRaw) kb latest hl
        hcrit _ rfl (List.ne_nil_of_mem hmem) hrl cv' heq hsave
      obtain ⟨c, hfc, hdc⟩ := repairLoop_ok_disk env
        ((check_for_updates env (.parsed v.toRaw) true).missing_files ++
          (check_for_updates env (.parsed v.toRaw) true).corrupted_files)
        env.localFiles hTnd hTb hrl name hmem
      refine ⟨?_, c, hfc, ?_, ?_⟩
      · rw [hstore]
        simp only [lastCommitOf]
        rw [repairRecord_last_commit env _ [] _ _ cv' heq]
        rfl
      · rw [hdisk name (fun b hb => hTb name hmem b hb)]
        exact hdc
      · rw [hstore, recordedHash_parsed]
        exact hmain name hmem c hdc (hhash c)
    · exact absurd
        ((repair_run_failed_eq env (.parsed v.toRaw) kb latest hl hcrit _ rfl
          (List.ne_nil_of_mem hmem) hrl).symm.trans hfail) hrl

def envC6w : Env :=
  { envBase with
      latestCommit := .ok ⟨"SHA2", "msg", "2025-01-02", "au"⟩,
      localFiles := fun n =>
        if n = "run_mcs.bat" then none
        else if n = "finders/steam_finder.py" then some "tampered"
        else some ("C-" ++ n) }

theorem envC6w_hash_ne (s : String) : envC6w.hashFn s ≠ "" := by
  intro h
  have hlen := congrArg String.length h
  simp [envC6w, envBase, String.length_append] at hlen
  exact absurd hlen.1 (by decide)

theorem c6_witness :
    (repair_run envC6w (.parsed vC6.toRaw) false).1.failed_repairs = [] ∧
    "run_mcs.bat" ∈
      (check_for_updates envC6w (.parsed vC6.toRaw) true).missing_files ++
        (check_for_updates envC6w (.parsed vC6.toRaw) true).corrupted_files ∧
    (lastCommitOf (repair_run envC6w (.parsed vC6.toRaw) false).2.1 = some "SHA2" ∧
      ∃ c, envC6w.fetchFile "run_mcs.bat" = .ok c ∧
      (repair_run envC6w (.parsed vC6.toRaw) false).2.2.1 "run_mcs.bat" = some c ∧
      recordedHash (repair_run envC6w (.parsed vC6.toRaw) false).2.1 "run_mcs.bat" =
        some (envC6w.hashFn c)) :=
  ⟨by decide, by decide,
    (c6_repair_record_update envC6w vC6 false).2 ⟨"SHA2", "msg", "2025-01-02", "au"⟩
      rfl rfl envC6w_hash_ne (by decide) "run_mcs.bat" (by decide)⟩

/-! ## C8: which paths the executors touch -/

def envC8 : Env :=
  { envBase with
      latestCommit := .ok ⟨"SHA2", "msg", "2025-01-02", "au"⟩,
      localFiles := fun n => if n = "run_mcs.bat" then some "oldlocal" else none }

def vC8 : VersionInfo := ⟨some "SHA0", [("run_mcs.bat", "#oldlocal")], none⟩

/-- **C8, counterexample**: an update run *does* create a file whose path is
outside the tracked-file list: the pre-overwrite backup
`run_mcs.bat.backup` (and it also writes `version_info.json`); so "no file
whose path is outside that list is ever created, modified, or deleted" is
false as stated. -/
theorem c8_counterexample :
    FsEvent.copyFile "run_mcs.bat" "run_mcs.bat.backup" ∈
      (perform_update envC8 (.parsed vC8.toRaw) false).2.2.2 ∧
    "run_mcs.bat.backup" ∉ TRACKED_FILES := by
  decide

theorem changed_name_tracked (env : Env) (raw : RawVersionInfo) :
    ∀ fi ∈ get_changed_files env raw, fi.name ∈ TRACKED_FILES := by
  intro fi hfi
  rcases List.mem_filterMap.mp hfi with ⟨t, ht, he⟩
  rw [changedEntry_name he]
  exact ht

theorem backup_file_events (env : Env) (d : Disk) (q : String) :
    (backup_file env d q).2.1 = [] ∨
    (backup_file env d q).2.1 = [.copyFile q (backupName q)] := by
  unfold backup_file
  cases d q with
  | none => exact .inl rfl
  | some c =>
    simp only []
    by_cases hb : env.backupOk q = true
    · rw [if_pos hb]
      exact .inr rfl
    · rw [if_neg hb]
      exact .inl rfl

theorem backup_file_backup (env : Env) (d : Disk) (q : String) :
    (backup_file env d q).2.2 = none ∨
    (backup_file env d q).2.2 = some (backupName q) := by
  unfold backup_file
  cases d q with
  | none => exact .inl rfl
  | some c =>
    simp only []
    by_cases hb : env.backupOk q = true
    · rw [if_pos hb]
      exact .inr rfl
    · rw [if_neg hb]
      exact .inl rfl

theorem updateOne_events (env : Env) (d : Disk) (fi : ChangedFile)
    (h : fi.name ∈ TRACKED_FILES) :
    ∀ ev ∈ (updateOne env d fi).2.1, ∀ p ∈ ev.paths, allowedPath p := by
  cases fi with
  | err n m =>
    intro ev hev
    simp [updateOne] at hev
  | ok n lh ch rh c =>
    simp only [updateOne]
    cases hm : env.mkdirErr n with
    | some e => intro ev hev; simp at hev
    | none =>
      simp only []
      cases hw : env.writeErr n with
      | some e =>
        simp only []
        intro ev hev p hp
        rcases backup_file_events env d n with hb | hb
        · rw [hb] at hev; simp at hev
        · rw [hb] at hev
          simp at hev
          subst hev
          simp [FsEvent.paths] at hp
          subst hp
          exact Or.inr (Or.inl ⟨n, h, rfl⟩)
      | none =>
        simp only []
        intro ev hev p hp
        rcases List.mem_append.mp hev with h1 | h1
        · rcases backup_file_events env d n with hb | hb
          · rw [hb] at h1; simp at h1
          · rw [hb] at h1
            simp at h1
            subst h1
            simp [FsEvent.paths] at hp
            subst hp
            exact Or.inr (Or.inl ⟨n, h, rfl⟩)
        · simp at h1
          subst h1
          simp [FsEvent.paths] at hp
          subst hp
          exact Or.inl h

theorem updateOne_entry (env : Env) (d : Disk) (fi : ChangedFile) :
    ∀ u ∈ (updateOne env d fi).2.2.1.toList,
      u.name = fi.name ∧
      (u.backup = none ∨ u.backup = some (backupName fi.name)) := by
  cases fi with
  | err n m => intro u hu; simp [updateOne] at hu
  | ok n lh ch rh c =>
    simp only [updateOne]
    cases hm : env.mkdirErr n with
    | some e => intro u hu; simp at hu
    | none =>
      simp only []
      cases hw : env.writeErr n with
      | some e => intro u hu; simp at hu
      | none =>
        intro u hu
        simp at hu
        subst hu
        exact ⟨rfl, backup_file_backup env d n⟩

theorem update_files_events (env : Env) (changed : List ChangedFile) :
    ∀ d, (∀ fi ∈ changed, fi.name ∈ TRACKED_FILES) →
      ∀ ev ∈ (update_files env d changed).2.2.2, ∀ p ∈ ev.paths, allowedPath p := by
  induction changed with
  | nil => intro d _ ev hev; simp [update_files] at hev
  | cons fi rest ih =>
    intro d hT ev hev
    simp only [update_files] at hev
    rcases List.mem_append.mp hev with h | h
    · exact updateOne_events env d fi (hT fi (List.mem_cons_self fi rest)) ev h
    · exact ih _ (fun x hx => hT x (List.mem_cons_of_mem fi hx)) ev h

theorem update_files_entries (env : Env) (changed : List ChangedFile) :
    ∀ d, ∀ u ∈ (update_files env d changed).2.1,
      ∃ fi ∈ changed, u.name = fi.name ∧
        (u.backup = none ∨ u.backup = some (backupName fi.name)) := by
  induction changed with
  | nil => intro d u hu; simp [update_files] at hu
  | cons fi rest ih =>
    intro d u hu
    simp only [update_files] at hu
    rcases List.mem_append.mp hu with h | h
    · exact ⟨fi, List.mem_cons_self fi rest, updateOne_entry env d fi u h⟩
    · obtain ⟨fi', hfi', hn⟩ := ih _ u h
      exact ⟨fi', List.mem_cons_of_mem fi hfi', hn⟩

theorem save_version_info_events (env : Env) (r : RawVersionInfo) (s : Store) :
    ∀ ev ∈ (save_version_info env r s).2.2, ∀ p ∈ ev.paths, allowedPath p := by
  unfold save_version_info
  by_cases hs : env.saveOk = true
  · rw [if_pos hs]
    intro ev hev p hp
    simp at hev
    subst hev
    simp [FsEvent.paths] at hp
    subst hp
    exact Or.inr (Or.inr rfl)
  · rw [if_neg hs]
    intro ev hev
    simp at hev

theorem cleanup_backups_events (env : Env) (bks : List (Option String)) :
    ∀ d, ∀ ev ∈ (cleanup_backups env d bks).2.1, ∀ p ∈ ev.paths,
      ∃ b, some b ∈ bks ∧ p = b := by
  induction bks with
  | nil => intro d ev hev; simp [cleanup_backups] at hev
  | cons ob rest ih =>
    intro d ev hev p hp
    cases ob with
    | none =>
      simp only [cleanup_backups] at hev
      obtain ⟨b, hb, hpb⟩ := ih d ev hev p hp
      exact ⟨b, List.mem_cons_of_mem none hb, hpb⟩
    | some b0 =>
      simp only [cleanup_backups] at hev
      by_cases hex : d b0 ≠ none
      · rw [if_pos hex] at hev
        cases hde : env.deleteErr b0 with
        | none =>
          rw [hde] at hev
          simp only [] at hev
          rcases List.mem_cons.mp hev with rfl | hev1
          · simp [FsEvent.paths] at hp
            exact ⟨b0, List.mem_cons_self (some b0) rest, hp⟩
          · obtain ⟨b, hb, hpb⟩ := ih _ ev hev1 p hp
            exact ⟨b, List.mem_cons_of_mem (some b0) hb, hpb⟩
        | some e =>
          rw [hde] at hev
          simp only [] at hev
          obtain ⟨b, hb, hpb⟩ := ih _ ev hev p hp
          exact ⟨b, List.mem_cons_of_mem (some b0) hb, hpb⟩
      · rw [if_neg hex] at hev
        obtain ⟨b, hb, hpb⟩ := ih _ ev hev p hp
        exact ⟨b, List.mem_cons_of_mem (some b0) hb, hpb⟩

theorem check_lists_tracked (env : Env) (store : Store) (ii : Bool) :
    ∀ x ∈ (check_for_updates env store ii).missing_files ++
        (check_for_updates env store ii).corrupted_files, x ∈ TRACKED_FILES := by
  intro x hx
  unfold check_for_updates at hx
  simp only [] at hx
  split at hx
  · simp [errorResult] at hx
  · split at hx
    · simp [errorResult] at hx
    · split at hx
      · simp only [] at hx
        rcases List.mem_append.mp hx with h | h
        · exact (mem_classifiedAs.mp h).1
        · exact (mem_classifiedAs.mp h).1
      · simp at hx

theorem repairOne_events (env : Env) (d : Disk) (name : String)
    (h : name ∈ TRACKED_FILES) :
    ∀ ev ∈ (repairOne env d name).2.1, ∀ p ∈ ev.paths, allowedPath p := by
  unfold repairOne
  cases hf : env.fetchFile name with
  | error e => intro ev hev; simp at hev
  | ok c =>
    simp only []
    cases hm : env.mkdirErr name with
    | some e => intro ev hev; simp at hev
    | none =>
      simp only []
      cases hd : d name with
      | some old =>
        simp only []
        by_cases hr : env.renameOk name = true
        · rw [if_pos hr]
          cases hw : env.writeErr name with
          | none =>
            intro ev hev p hp
            simp at hev
            rcases hev with rfl | rfl
            · simp [FsEvent.paths] at hp
              rcases hp with rfl | rfl
              · exact Or.inl h
              · exact Or.inr (Or.inl ⟨name, h, rfl⟩)
            · simp [FsEvent.paths] at hp
              subst hp
              exact Or.inl h
          | some e =>
            intro ev hev p hp
            simp at hev
            subst hev
            simp [FsEvent.paths] at hp
            rcases hp with rfl | rfl
            · exact Or.inl h
            · exact Or.inr (Or.inl ⟨name, h, rfl⟩)
        · rw [if_neg hr]
          intro ev hev
          simp at hev
      | none =>
        simp only []
        cases hw : env.writeErr name with
        | none =>
          intro ev hev p hp
          simp at hev
          subst hev
          simp [FsEvent.paths] at hp
          subst hp
          exact Or.inl h
        | some e =>
          intro ev hev
          simp at hev

theorem repairLoop_events (env : Env) (ts : List String) :
    ∀ d, (∀ t ∈ ts, t ∈ TRACKED_FILES) →
      ∀ ev ∈ (repairLoop env d ts).2.1, ∀ p ∈ ev.paths, allowedPath p := by
  induction ts with
  | nil => intro d _ ev hev; simp [repairLoop] at hev
  | cons a rest ih =>
    intro d hT ev hev
    simp only [repairLoop] at hev
    rcases List.mem_append.mp hev with h | h
    · exact repairOne_events env d a (hT a (List.mem_cons_self a rest)) ev h
    · exact ih _ (fun t ht => hT t (List.mem_cons_of_mem a ht)) ev h

theorem perform_update_events (env : Env) (store : Store) (kb : Bool) :
    ∀ ev ∈ (perform_update env store kb).2.2.2, ∀ p ∈ ev.paths, allowedPath p := by
  unfold perform_update
  simp only []
  split
  · intro ev hev; simp at hev
  · split
    · intro ev hev; simp at hev
    · split
      · intro ev hev; simp at hev
      · split
        · exact save_version_info_events env _ store
        · split
          · intro ev hev
            exact update_files_events env _ _ (changed_name_tracked env _) ev hev
          · split
            · intro ev hev
              rcases List.mem_append.mp hev with h | h
              · exact update_files_events env _ _ (changed_name_tracked env _) ev h
              · exact save_version_info_events env _ store ev h
            · intro ev hev p hp
              rcases List.mem_append.mp hev with h | h
              · rcases List.mem_append.mp h with h1 | h1
                · exact update_files_events env _ _ (changed_name_tracked env _)
                    ev h1 p hp
                · exact save_version_info_events env _ store ev h1 p hp
              · obtain ⟨b, hbm, rfl⟩ := cleanup_backups_events env _ _ ev h p hp
                rcases List.mem_map.mp hbm with ⟨u, hu, hub⟩
                obtain ⟨fi, hfi, hun, hob⟩ := update_files_entries env _ _ u hu
                rcases hob with hob | hob
                · rw [hub] at hob; cases hob
                · rw [hub] at hob
                  cases Option.some.inj hob
                  exact Or.inr (Or.inl ⟨fi.name,
                    changed_name_tracked env _ fi hfi, rfl⟩)

theorem repair_run_events (env : Env) (store : Store) (kb : Bool) :
    ∀ ev ∈ (repair_run env store kb).2.2.2, ∀ p ∈ ev.paths, allowedPath p := by
  unfold repair_run
  simp only []
  split
  · split
    · split
      · intro ev hev; simp at hev
      · split
        · intro ev hev
          exact repairLoop_events env _ env.localFiles
            (check_lists_tracked env store true) ev hev
        · split
          · intro ev hev
            exact repairLoop_events env _ env.localFiles
              (check_lists_tracked env store true) ev hev
          · split
            · intro ev hev
              rcases List.mem_append.mp hev with h | h
              · exact repairLoop_events env _ env.localFiles
                  (check_lists_tracked env store true) ev h
              · exact save_version_info_events env _ store ev h
            · intro ev hev p hp
              rcases List.mem_append.mp hev with h | h
              · rcases List.mem_append.mp h with h1 | h1
                · exact repairLoop_events env _ env.localFiles
                    (check_lists_tracked env store true) ev h1 p hp
                · exact save_version_info_events env _ store ev h1 p hp
              · obtain ⟨b, hbm, rfl⟩ := cleanup_backups_events env _ _ ev h p hp
                rcases List.mem_filterMap.mp hbm with ⟨t, ht, hft⟩
                split at hft
                · cases hft
                · split at hft
                  · cases Option.some.inj (Option.some.inj hft)
                    exact Or.inr (Or.inl ⟨t,
                      check_lists_tracked env store true t ht, rfl⟩)
                  · cases hft
    · intro ev hev; simp at hev
  · intro ev hev; simp at hev

/-- **C8, amended**: the classification loop iterates only names of the
fixed tracked-file list, and every path the update and repair executors
create, modify or delete is a tracked file, the `.backup` sibling of a
tracked file, or the persisted `version_info.json` - backups and the
version file *are* paths outside the tracked list that the operations
write and delete, so "files outside the list are never touched" holds only
up to those two kinds of bookkeeping paths. -/
theorem c8_tracked_iteration_and_paths (env : Env) (store : Store) (kb : Bool) :
    (∀ fi ∈ get_changed_files env (load_version_info store),
      fi.name ∈ TRACKED_FILES) ∧
    (∀ ev ∈ (perform_update env store kb).2.2.2, ∀ p ∈ ev.paths, allowedPath p) ∧
    (∀ ev ∈ (repair_run env store kb).2.2.2, ∀ p ∈ ev.paths, allowedPath p) :=
  ⟨changed_name_tracked env _, perform_update_events env store kb,
    repair_run_events env store kb⟩

end NMSUpdater
